import Mathlib

/-!
Shallow embedding of the markdown batch-processing engine of this
repository: the text normaliser and markdown classifier of
`src/AI/AiOps.py`, the GPT invoker with its verify-and-retry rule, the
bulk database driver `AiOpsMarkdownExtended.produceMarkdownInBulk`, the
CSV import driver `produceRoutesMarkdownInBulk` of
`src/Databases/DbOps.py`, and the per-language cleaning loop of
`src/MarkdownCleaner.py`.

Text is modelled as `List Char` over the ASCII fragment of Python's
`str` semantics (whitespace, digits and word characters are the ASCII
sets; all concrete inputs used below are ASCII).  Regular expressions
from the source are transcribed pattern by pattern into decidable
matchers; each matcher's doc comment quotes the regex it embeds.
-/

namespace MdEngine

/-- ASCII whitespace: the characters stripped by Python's `str.strip()`
and matched by the regex class `\s`. -/
def isWS (c : Char) : Bool :=
  c == ' ' || c == '\t' || c == '\n' || c == '\r' || c == '\x0b' || c == '\x0c'

/-- `text.replace("\r\n", "\n")`: left-to-right, non-overlapping. -/
def replCRLF : List Char → List Char
  | [] => []
  | [c] => [c]
  | a :: b :: t =>
    if a == '\r' && b == '\n' then '\n' :: replCRLF t
    else a :: replCRLF (b :: t)

/-- `text.replace("\r", "\n")` (applied after the CRLF replacement, so it
rewrites the lone carriage returns). -/
def replCR (l : List Char) : List Char :=
  l.map fun c => if c == '\r' then '\n' else c

/-- Python `str.strip()`: drop leading and trailing whitespace. -/
def strip (l : List Char) : List Char :=
  ((l.dropWhile isWS).reverse.dropWhile isWS).reverse

/-- Worker for `re.sub(r"\n{3,}", "\n\n", txt)`: `k` counts the pending
run of newlines; a maximal run of `n` newlines is emitted as
`min n 2` newlines, which leaves runs of one or two unchanged and
collapses longer runs to exactly two. -/
def collapseAux : Nat → List Char → List Char
  | k, [] => List.replicate (min k 2) '\n'
  | k, c :: t =>
    if c == '\n' then collapseAux (k + 1) t
    else List.replicate (min k 2) '\n' ++ c :: collapseAux 0 t

/-- `_RE_MANY_BLANKS.sub("\n\n", txt)` where `_RE_MANY_BLANKS = \n{3,}`. -/
def collapse (l : List Char) : List Char := collapseAux 0 l

/-- `_normalise` from `AiOps.py` (88-91) and `MarkdownCleaner.py` (55-57):
CRLF and lone CR to LF, trim, collapse three-or-more newlines to two. -/
def normalise (l : List Char) : List Char :=
  collapse (strip (replCR (replCRLF l)))

example : normalise "a\r\nb".toList = "a\nb".toList := by decide
example : normalise "  x  ".toList = "x".toList := by decide
example : normalise "a\n\n\n\nb".toList = "a\n\nb".toList := by decide
example : normalise "a\rb".toList = "a\nb".toList := by decide

/-! ### The markdown / HTML classifier `_has_markdown` (`AiOps.py` 59-97)

Every pattern of `_MD_PATTERNS` is compiled with `re.I | re.M`, so `^`
and `$` anchor at line boundaries and letters match case-insensitively.
Anchored patterns are therefore transcribed per line (the text is split
on `'\n'`); the few regex pieces that could span a newline are matched
on the whole text.  A match that crosses a line boundary can only occur
in text that contains `'\n'`, which the final pattern `\n` of
`_EXTRA_PATTERNS` reports by itself, so the per-line transcription
leaves `_has_markdown` unchanged. -/

/-- The backtick character (code 96). -/
def backtick : Char := Char.ofNat 96

/-- ASCII word character, regex class `\w`. -/
def isWordC (c : Char) : Bool :=
  (decide ('a' ≤ c) && decide (c ≤ 'z')) || (decide ('A' ≤ c) && decide (c ≤ 'Z')) ||
  (decide ('0' ≤ c) && decide (c ≤ '9')) || c == '_'

/-- ASCII digit, regex class `\d`. -/
def isDigitC (c : Char) : Bool := decide ('0' ≤ c) && decide (c ≤ '9')

/-- Split a text on `'\n'` into its lines (the positions where the
multiline anchors `^` and `$` apply). -/
def linesNL : List Char → List (List Char)
  | [] => [[]]
  | c :: t =>
    let ls := linesNL t
    if c == '\n' then [] :: ls
    else (c :: ls.headD []) :: ls.tail

/-- Regex `^\s*#{1,6}\s+\S` on one line: optional whitespace, one to six
hashes, at least one whitespace, then a non-whitespace character. -/
def headingLine (l : List Char) : Bool :=
  let l1 := l.dropWhile isWS
  let hs := (l1.takeWhile (fun c => c == '#')).length
  let rest := l1.dropWhile (fun c => c == '#')
  decide (1 ≤ hs) && decide (hs ≤ 6) &&
  (match rest with
   | c :: _ => isWS c && !((rest.dropWhile isWS).isEmpty)
   | [] => false)

/-- Regex `^\s*>\s+` on one line. -/
def blockquoteLine (l : List Char) : Bool :=
  match l.dropWhile isWS with
  | '>' :: c :: _ => isWS c
  | _ => false

/-- Regex `^\s*[*+-]\s+\S` on one line. -/
def bulletLine (l : List Char) : Bool :=
  match l.dropWhile isWS with
  | c :: rest =>
    (c == '*' || c == '+' || c == '-') &&
    (match rest with
     | d :: _ => isWS d && !((rest.dropWhile isWS).isEmpty)
     | [] => false)
  | [] => false

/-- Regex `^\s*\d+\.\s+\S` on one line. -/
def numberedLine (l : List Char) : Bool :=
  let l1 := l.dropWhile isWS
  let ds := (l1.takeWhile isDigitC).length
  let rest := l1.dropWhile isDigitC
  decide (1 ≤ ds) &&
  (match rest with
   | '.' :: r2 =>
     (match r2 with
      | c :: _ => isWS c && !((r2.dropWhile isWS).isEmpty)
      | [] => false)
   | _ => false)

/-- The fenced-code pattern (three backticks) occurring anywhere. -/
def hasTicks : List Char → Bool
  | a :: b :: d :: t =>
    (a == backtick && b == backtick && d == backtick) || hasTicks (b :: d :: t)
  | _ => false

/-- Regex `\|.*\|.*\|` : three pipes with arbitrary non-newline text
between them, i.e. some line holds at least three pipes. -/
def pipeLine (l : List Char) : Bool :=
  decide (3 ≤ (l.filter (fun c => c == '|')).length)

/-- Regex `\[.+?\]\(.+?\)` on one line: a bracketed non-empty stretch
immediately followed by a parenthesised non-empty stretch. -/
def linkLine (l : List Char) : Bool :=
  let n := l.length
  (List.range n).any fun i =>
    (List.range n).any fun j =>
      (List.range n).any fun k =>
        decide (i + 2 ≤ j) && decide (j + 3 ≤ k) &&
        (l.getD i ' ' == '[') && (l.getD j ' ' == ']') &&
        (l.getD (j + 1) ' ' == '(') && (l.getD k ' ' == ')')

/-- All characters of `l` in positions `a ≤ m < b` satisfy `p`. -/
def segAll (p : Char → Bool) (l : List Char) (a b : Nat) : Bool :=
  ((l.drop a).take (b - a)).all p

/-- Regex `__\S+?__|\*\*\S+?\*\*` : a doubled marker, one or more
non-whitespace characters, the doubled marker again. -/
def emphMatch (l : List Char) : Bool :=
  let n := l.length
  let hit := fun (u : Char) =>
    (List.range n).any fun i =>
      (List.range n).any fun j =>
        decide (i + 3 ≤ j) && decide (j + 1 < n) &&
        (l.getD i ' ' == u) && (l.getD (i + 1) ' ' == u) &&
        (l.getD j ' ' == u) && (l.getD (j + 1) ' ' == u) &&
        segAll (fun c => !isWS c) l (i + 2) j
  hit '_' || hit '*'

/-- Regex `(?<!\*)\*\w[^*]+\*` : a star not preceded by a star, a word
character, one or more non-star characters, a closing star. -/
def italicMatch (l : List Char) : Bool :=
  let n := l.length
  (List.range n).any fun i =>
    (List.range n).any fun k =>
      decide (i + 3 ≤ k) &&
      (l.getD i ' ' == '*') && (decide (i = 0) || !(l.getD (i - 1) ' ' == '*')) &&
      isWordC (l.getD (i + 1) ' ') && (l.getD k ' ' == '*') &&
      segAll (fun c => !(c == '*')) l (i + 2) k

/-- The inline-code regex: backtick, one or more non-backtick
characters, backtick. -/
def codeSpanMatch (l : List Char) : Bool :=
  let n := l.length
  (List.range n).any fun i =>
    (List.range n).any fun k =>
      decide (i + 2 ≤ k) && (l.getD i ' ' == backtick) && (l.getD k ' ' == backtick) &&
      segAll (fun c => !(c == backtick)) l (i + 1) k

/-- A horizontal-rule character, regex class `[-_*]`. -/
def isHRChar (c : Char) : Bool := c == '-' || c == '_' || c == '*'

/-- Token loop for `([-_*] ?){3,}\s*$` : each token is a rule character
with an optional single trailing space; after the tokens only
whitespace may remain, and at least three tokens are required. -/
def hrTokens : List Char → Nat → Bool
  | [], n => decide (3 ≤ n)
  | [c], n => if isHRChar c then decide (3 ≤ n + 1) else decide (3 ≤ n) && isWS c
  | c :: d :: rest, n =>
    if isHRChar c then
      if d == ' ' then hrTokens rest (n + 1) else hrTokens (d :: rest) (n + 1)
    else decide (3 ≤ n) && (c :: d :: rest).all isWS

/-- Regex `^\s*([-_*] ?){3,}\s*$` on one line. -/
def hrLine (l : List Char) : Bool := hrTokens (l.dropWhile isWS) 0

/-- Case-insensitive tag search: regex `<WORD[ >]` under `re.I`, where
`WORD` is a fixed lowercase tag name. -/
def tagWordMatch (l : List Char) (w : List Char) : Bool :=
  let n := l.length
  (List.range n).any fun i =>
    (l.getD i ' ' == '<') &&
    ((List.range w.length).all fun m => (l.getD (i + 1 + m) ' ').toLower == w.getD m ' ') &&
    (let e := l.getD (i + 1 + w.length) ' '
     (e == ' ' || e == '>')) &&
    decide (i + 1 + w.length < n)

/-- Regex `<h[1-6][ >]` under `re.I`. -/
def htmlHeadMatch (l : List Char) : Bool :=
  let n := l.length
  (List.range n).any fun i =>
    (l.getD i ' ' == '<') && ((l.getD (i + 1) ' ').toLower == 'h') &&
    (let d := l.getD (i + 2) ' '
     decide ('1' ≤ d) && decide (d ≤ '6')) &&
    (let e := l.getD (i + 3) ' '
     (e == ' ' || e == '>')) &&
    decide (i + 3 < n)

/-- Regex `<(ul|ol|li)[ >]` under `re.I`. -/
def htmlListMatch (l : List Char) : Bool :=
  tagWordMatch l ['u', 'l'] || tagWordMatch l ['o', 'l'] || tagWordMatch l ['l', 'i']

/-- Regex `<table[ >]|<tr[ >]|<td[ >]` under `re.I`. -/
def htmlTableMatch (l : List Char) : Bool :=
  tagWordMatch l ['t', 'a', 'b', 'l', 'e'] || tagWordMatch l ['t', 'r'] ||
  tagWordMatch l ['t', 'd']

/-- Regex `(?m)^[ \t]*L#\b` under `re.I`, on one line: leading spaces or
tabs, `L` or `l`, `#`, then a word character — the trailing `\b` sits
after the non-word `#`, so it only holds when a word character
follows. -/
def lhashLine (l : List Char) : Bool :=
  match l.dropWhile (fun c => c == ' ' || c == '\t') with
  | c :: '#' :: d :: _ => (c == 'L' || c == 'l') && isWordC d
  | _ => false

/-- `_has_markdown` (`AiOps.py` 94-97): normalise, then report whether
any pattern of `_MD_PATTERNS` matches, in source order (the final two
patterns are the stray-CR and any-newline cues of `_EXTRA_PATTERNS`). -/
def has_markdown (txt : List Char) : Bool :=
  let n := normalise txt
  let ls := linesNL n
  ls.any headingLine || ls.any blockquoteLine || ls.any bulletLine ||
  ls.any numberedLine || hasTicks n || ls.any pipeLine || ls.any linkLine ||
  emphMatch n || italicMatch n || codeSpanMatch n || ls.any hrLine ||
  htmlHeadMatch n || htmlListMatch n || htmlTableMatch n ||
  ls.any lhashLine || n.any (fun c => c == '\r') || n.any (fun c => c == '\n')

example : has_markdown "# Title".toList = true := by decide
example : has_markdown "plain text here".toList = false := by decide
example : has_markdown "a\nb".toList = true := by decide
example : has_markdown "| a | b | c |".toList = true := by decide
example : has_markdown "| a |".toList = false := by decide
example : has_markdown "see [x](y) now".toList = true := by decide
example : has_markdown "a **bold** word".toList = true := by decide
example : has_markdown "an *ital* word".toList = true := by decide
example : has_markdown "- item one".toList = true := by decide
example : has_markdown "1. item".toList = true := by decide
example : has_markdown "--- ".toList = true := by decide
example : has_markdown "- - -".toList = true := by decide
example : has_markdown "<h2>x".toList = true := by decide
example : has_markdown "<ul>".toList = true := by decide
example : has_markdown "L#1 pitch".toList = true := by decide
example : has_markdown "L# pitch".toList = false := by decide

/-! ### The GPT wrapper and the verify-and-retry invoker -/

/-- One oracle reply: the transformed text, or a raised fault. -/
inductive OResp where
  | ok (s : List Char)
  | fault
deriving DecidableEq, Repr

/-- `AiOps.generate_response` (38-48) applied to one oracle reply:
`resp.output_text.strip()` on success, and on any exception the fault is
logged and the stripped original input is returned. -/
def genResp (r : OResp) (input : List Char) : List Char :=
  match r with
  | .ok s => strip s
  | .fault => strip input

/-- `generate_response` with a pure (call-independent) oracle. -/
def generate_response (oracle : List Char → OResp) (input : List Char) : List Char :=
  genResp (oracle input) input

/-- `AiOpsMarkdownExtended._process_block` (130-134): call GPT, then
`_normalise` the answer. -/
def processBlock (oracle : List Char → OResp) (raw : List Char) : List Char :=
  normalise (generate_response oracle raw)

/-- `re.search(r"\bL#\b", md)` scanner: `prevW` records whether the
previous character was a word character.  A hit is an `L` at the start
or after a non-word character, followed by `#` and then a word
character (the `\b` after the non-word `#` demands a word character
next). -/
def lhashWBAux : Bool → List Char → Bool
  | _, [] => false
  | prevW, c :: rest =>
    (c == 'L' && !prevW &&
      (match rest with
       | '#' :: d :: _ => isWordC d
       | _ => false)) ||
    lhashWBAux (isWordC c) rest

/-- `re.search(r"\bL#\b", md)` (`AiOps.py` 166 and 247). -/
def hasLHashWB (l : List Char) : Bool := lhashWBAux false l

example : hasLHashWB "x L#2 y".toList = true := by decide
example : hasLHashWB "x L# y".toList = false := by decide
example : hasLHashWB "L#".toList = false := by decide
example : hasLHashWB "XL#1".toList = false := by decide

/-- The verify-and-retry wrapper around the oracle (the block treatment
of `produceMarkdownInBulk` 243-251, identical in
`produceMarkdownForRoute` 162-170), instrumented with a call counter:
`k` oracle calls have been made before this block; the result pairs the
returned text with the updated total.  First pass, normalise; if the
normalised output still matches `\bL#\b`, call the oracle once more on
the same original raw text and return that second normalised answer
unconditionally. -/
def invoke_with_retry (orc : Nat → OResp) (k : Nat) (raw : List Char) :
    List Char × Nat :=
  let md := normalise (genResp (orc k) raw)
  if hasLHashWB md then (normalise (genResp (orc (k + 1)) raw), k + 2)
  else (md, k + 1)

/-- The same block treatment with a pure oracle (as used inside the bulk
driver below, where call counts are not at stake). -/
def transformBlock (oracle : List Char → OResp) (txt : List Char) : List Char :=
  let md := processBlock oracle txt
  if hasLHashWB md then processBlock oracle txt else md

/-! ### Data model: routes, description blobs, language maps -/

/-- A language-to-text mapping (a JSON object of strings). -/
abbrev LangMap := List (String × List Char)

/-- Dictionary lookup `m.get(lang, "")`. -/
def lookupD (m : LangMap) (k : String) : List Char :=
  match m.find? (fun p => p.1 == k) with
  | some p => p.2
  | none => []

/-- `_LANG_ORDER` (`AiOps.py` 55) = `LANG_ORDER` (`MarkdownCleaner.py` 31). -/
def LANG_ORDER : List String := ["fr", "en", "it", "es", "de", "ca"]

/-- The raw `route.description` column as seen by
`_parse_description` (120-128): either a value that yields a
string-to-string dictionary (a dict argument, or a JSON string that
parses to an object), or a value whose parse fails (malformed JSON or a
non-object), which yields the empty dictionary. -/
inductive Desc where
  | dict (m : LangMap)
  | malformed
deriving DecidableEq, Repr

/-- `AiOpsMarkdownExtended._parse_description`. -/
def parseDescription : Desc → LangMap
  | .dict m => m
  | .malformed => []

/-- The persisted `ai_reformatted_description` value: SQL `NULL`, a JSON
object, or a plain string. -/
inductive Blob where
  | null
  | obj (m : LangMap)
  | str (s : List Char)
deriving DecidableEq, Repr

/-- One row of the `route` table. -/
structure Route where
  id : Nat
  status : String
  description : Desc
  aiDesc : Blob
deriving DecidableEq, Repr

/-- The skip-already-done test of `produceMarkdownInBulk` (228-231):
`row["ai_reformatted_description"] not in (None, {}, "{}", "")` — true
means the row is skipped. -/
def aiSkipDone (b : Blob) : Bool :=
  !(decide (b = Blob.null) || decide (b = Blob.obj []) ||
    decide (b = Blob.str ("\x7b\x7d".toList)) || decide (b = Blob.str []))

/-- The skip-already-done test of `produceRoutesMarkdownInBulk`
(`DbOps.py` 86-94): skip iff the fetched column value
`(cur.fetchone() or [None])[0] is not None` — a missing row or a SQL
`NULL` proceeds, anything else (including an empty object or an empty
string) is skipped. -/
def dbSkipDone (fetched : Option Blob) : Bool :=
  match fetched with
  | some b => !(decide (b = Blob.null))
  | none => false

/-- `UPDATE route SET ai_reformatted_description = %s WHERE id = %s`:
every row whose id matches is rewritten. -/
def updateStore (store : List Route) (rid : Nat) (b : Blob) : List Route :=
  store.map fun r => if r.id = rid then { r with aiDesc := b } else r

/-- `cur.rowcount` of that UPDATE: how many rows matched the id. -/
def countId (store : List Route) (rid : Nat) : Nat :=
  (store.filter fun r => r.id == rid).length

/-- Insertion step of the `ORDER BY id` model. -/
def insertById (r : Route) : List Route → List Route
  | [] => [r]
  | x :: t => if r.id ≤ x.id then r :: x :: t else x :: insertById r t

/-- `ORDER BY id` as an insertion sort. -/
def sortById : List Route → List Route
  | [] => []
  | r :: t => insertById r (sortById t)

/-- The snapshot query of `produceMarkdownInBulk` (206-218):
`SELECT ... FROM route WHERE status = '1' AND id >= start_id ORDER BY id`. -/
def fetchRows (store : List Route) (startId : Nat) : List Route :=
  sortById (store.filter fun r => r.status == "1" && decide (startId ≤ r.id))

/-! ### The per-record language loops -/

/-- The per-record language loop of `produceMarkdownInBulk` (237-251)
and `produceMarkdownForRoute` (156-170): for each language of the fixed
order list, strip its raw text, keep it only when non-empty and
classified as markdown-bearing, and transform it with the retry rule.
Languages outside `lo` are never looked up. -/
def buildResultMap (oracle : List Char → OResp) (lo : List String) (rd : LangMap) :
    List (String × List Char) :=
  lo.filterMap fun lang =>
    let txt := strip (lookupD rd lang)
    if txt.isEmpty then none
    else if !(has_markdown txt) then none
    else some (lang, transformBlock oracle txt)

/-- The per-language loop of `clean_route_csv_with_gpt`
(`MarkdownCleaner.py` 145-149): every listed language whose raw text is
non-empty is GPT-cleaned (`_gpt` = `_normalise` of `generate_response`);
no markdown classification and no retry here. -/
def cleanerLangToMd (oracle : List Char → OResp) (lo : List String) (src : LangMap) :
    List (String × List Char) :=
  lo.filterMap fun lang =>
    let raw := strip (lookupD src lang)
    if raw.isEmpty then none
    else some (lang, normalise (generate_response oracle raw))

/-! ### The bulk drivers -/

/-- Aggregate counters of a bulk run. -/
structure BulkCounts where
  processed : Nat
  updated : Nat
  failed : Nat
deriving DecidableEq, Repr

/-- `if limit is not None and processed >= limit: break`. -/
def limitHit (limit : Option Nat) (processed : Nat) : Bool :=
  match limit with
  | some n => decide (n ≤ processed)
  | none => false

/-- Configuration surface of `produceMarkdownInBulk`: the `skip`,
`limit` and `dry_run` keyword arguments plus the constructor's
`start_id`. -/
structure BulkConfig where
  skip : Bool
  limit : Option Nat
  dryRun : Bool
  startId : Nat
deriving DecidableEq, Repr

/-- The row loop of `produceMarkdownInBulk` (220-275) over the fetched
snapshot, threading the live store and the counters.  `pf rid = true`
injects a persistence fault while committing row `rid` (the exception
path 272-275: rollback, `failed += 1`, continue); the oracle itself
never raises (`generate_response` absorbs its faults). -/
def aiBulkLoop (oracle : List Char → OResp) (pf : Nat → Bool) (lo : List String)
    (cfg : BulkConfig) :
    List Route → List Route → BulkCounts → List Route × BulkCounts
  | [], store, c => (store, c)
  | row :: rest, store, c =>
    if limitHit cfg.limit c.processed then (store, c)
    else
      let c1 : BulkCounts := { c with processed := c.processed + 1 }
      if cfg.skip && aiSkipDone row.aiDesc then
        aiBulkLoop oracle pf lo cfg rest store c1
      else
        let rd := parseDescription row.description
        if rd.isEmpty then aiBulkLoop oracle pf lo cfg rest store c1
        else
          let rm := buildResultMap oracle lo rd
          if rm.isEmpty then aiBulkLoop oracle pf lo cfg rest store c1
          else if cfg.dryRun then aiBulkLoop oracle pf lo cfg rest store c1
          else if pf row.id then
            aiBulkLoop oracle pf lo cfg rest store
              { c1 with failed := c1.failed + 1 }
          else
            aiBulkLoop oracle pf lo cfg rest
              (updateStore store row.id (Blob.obj rm))
              { c1 with updated := c1.updated + countId store row.id }

/-- `AiOpsMarkdownExtended.produceMarkdownInBulk` (196-285): fetch the
ordered snapshot, then run the row loop from zero counters. -/
def produceMarkdownInBulk (oracle : List Char → OResp) (pf : Nat → Bool)
    (lo : List String) (cfg : BulkConfig) (store : List Route) :
    List Route × BulkCounts :=
  aiBulkLoop oracle pf lo cfg (fetchRows store cfg.startId) store ⟨0, 0, 0⟩

/-- One row of the cleaned CSV consumed by `produceRoutesMarkdownInBulk`:
the `id` and `description` fields, already defaulted to `""` when
missing. -/
structure CsvRow where
  idTxt : List Char
  descTxt : List Char
deriving DecidableEq, Repr

/-- `rid_txt.isdigit()` (ASCII): non-empty and all digits. -/
def isDigits (l : List Char) : Bool := !l.isEmpty && l.all isDigitC

/-- Numeric value of a digit string, `int(rid_txt)`. -/
def natOfDigits (l : List Char) : Nat :=
  l.foldl (fun a c => a * 10 + (c.toNat - '0'.toNat)) 0

/-- `SELECT ai_reformatted_description FROM route WHERE id = rid` on the
live store: the first matching row's blob, if any. -/
def dbLookup (store : List Route) (rid : Nat) : Option Blob :=
  (store.find? fun r => r.id == rid).map (·.aiDesc)

/-- The row loop of `produceRoutesMarkdownInBulk` (`DbOps.py` 67-115):
per CSV row, validate the id, strip the description, apply the
skip-already-done check against the live store, honour dry-run, then
update with per-row commit; `pf rid = true` injects a persistence fault
(rollback, `failed += 1`, continue).  The written value is the CSV text
cast to jsonb, modelled as `Blob.str` (a cast failure would surface as
a persistence fault). -/
def dbBulkLoop (pf : Nat → Bool) (skip dryRun : Bool) (limit : Option Nat) :
    List CsvRow → List Route → BulkCounts → List Route × BulkCounts
  | [], store, c => (store, c)
  | row :: rest, store, c =>
    if limitHit limit c.processed then (store, c)
    else
      let c1 : BulkCounts := { c with processed := c.processed + 1 }
      let ridTxt := strip row.idTxt
      if !(isDigits ridTxt) then dbBulkLoop pf skip dryRun limit rest store c1
      else
        let rid := natOfDigits ridTxt
        let md := strip row.descTxt
        if md.isEmpty then dbBulkLoop pf skip dryRun limit rest store c1
        else if skip && dbSkipDone (dbLookup store rid) then
          dbBulkLoop pf skip dryRun limit rest store c1
        else if dryRun then dbBulkLoop pf skip dryRun limit rest store c1
        else if pf rid then
          dbBulkLoop pf skip dryRun limit rest store
            { c1 with failed := c1.failed + 1 }
        else
          dbBulkLoop pf skip dryRun limit rest
            (updateStore store rid (Blob.str md))
            { c1 with updated := c1.updated + countId store rid }

/-- `produceRoutesMarkdownInBulk` (`DbOps.py` 51-124). -/
def produceRoutesMarkdownInBulk (pf : Nat → Bool) (skip dryRun : Bool)
    (limit : Option Nat) (csv : List CsvRow) (store : List Route) :
    List Route × BulkCounts :=
  dbBulkLoop pf skip dryRun limit csv store ⟨0, 0, 0⟩

/-- Spec wording (§4.3/§6): a transformed blob is absent when it is
null, an empty object, or an empty string.  Stated from the spec, to be
compared with the drivers' own skip checks. -/
def specAbsent (b : Blob) : Bool :=
  decide (b = Blob.null) || decide (b = Blob.obj []) || decide (b = Blob.str [])

/-- Spec wording (§4.3): an eligible record is status-active, beyond the
resume offset and, under skip-mode, its transformed blob is absent.
Stated from the spec, to be compared with the implementation's
`processed` counter. -/
def specEligible (skip : Bool) (startId : Nat) (r : Route) : Bool :=
  r.status == "1" && decide (startId ≤ r.id) && (!skip || specAbsent r.aiDesc)

/-! ### Generic helpers -/

/-- `pat` is a prefix of `l`. -/
def startsWith : List Char → List Char → Bool
  | [], _ => true
  | _ :: _, [] => false
  | p :: ps, c :: cs => p == c && startsWith ps cs

/-- `pat` occurs contiguously somewhere in `l` (Python's `pat in l`). -/
def hasSubstr (pat : List Char) : List Char → Bool
  | [] => startsWith pat []
  | l@(_ :: t) => startsWith pat l || hasSubstr pat t

example : hasSubstr "L#".toList "x L# y".toList = true := by decide

/-- The per-language keep test of the bulk loop: non-empty stripped text
that classifies as markdown-bearing. -/
def langKept (rd : LangMap) (lang : String) : Bool :=
  !(strip (lookupD rd lang)).isEmpty && has_markdown (strip (lookupD rd lang))

/-! ## Claim C9 — classifier cases -/

/-- Claim C9, counterexample: the text `| a |` is a pipe-delimited row
carrying two pipes (two or more, as the claim demands), yet the
classifier returns `false` — the source pattern needs three pipes. -/
theorem c9_pipe_counterexample :
    2 ≤ (("| a |".toList).filter (fun c => c == '|')).length ∧
    has_markdown "| a |".toList = false := by
  constructor
  · decide
  · decide

/-- Claim C9 (amended): the classifier returns true when some line of the
normalised text carries three or more pipes (not two), true when the text
contains a fenced-code marker after normalisation, true whenever a line
break survives normalisation, and false on a plain single-line sentence
free of every structural cue, e.g. `Hello world.`. -/
theorem c9_classifier_cases :
    (∀ t l, l ∈ linesNL (normalise t) →
      3 ≤ (l.filter (fun c => c == '|')).length → has_markdown t = true) ∧
    (∀ t, hasTicks (normalise t) = true → has_markdown t = true) ∧
    (∀ t, (normalise t).any (fun c => c == '\n') = true → has_markdown t = true) ∧
    has_markdown "Hello world.".toList = false := by
  refine ⟨?_, ?_, ?_, by decide⟩
  · intro t l hl hp
    have hpl : (linesNL (normalise t)).any pipeLine = true :=
      List.any_eq_true.mpr ⟨l, hl, by simpa [pipeLine] using hp⟩
    simp [has_markdown, hpl]
  · intro t h
    simp [has_markdown, h]
  · intro t h
    simp [has_markdown, h]

/-- Claim C9, witness: the three positive branches and the negative
branch evaluated at concrete inputs. -/
theorem c9_classifier_cases_witness :
    has_markdown "| a | b | c |".toList = true ∧
    has_markdown "x\x60\x60\x60y".toList = true ∧
    has_markdown "two\nlines".toList = true ∧
    has_markdown "Hello world.".toList = false := by
  refine ⟨?_, ?_, ?_, c9_classifier_cases.2.2.2⟩
  · exact c9_classifier_cases.1 "| a | b | c |".toList "| a | b | c |".toList
      (by decide) (by decide)
  · exact c9_classifier_cases.2.1 "x\x60\x60\x60y".toList (by decide)
  · exact c9_classifier_cases.2.2.1 "two\nlines".toList (by decide)

/-! ## Claim C2 — the verify-and-retry rule -/

/-- Claim C2, counterexample: with an oracle stub that always returns
`x L# y` — text containing the literal marker `L#` — the invoker makes
only one call (the source retry test `\bL#\b` requires a word character
after the `#`), contradicting "if ... contains the literal placeholder
marker 'L#' anywhere in the text ... the oracle is called exactly one
more time". -/
theorem c2_retry_counterexample :
    (invoke_with_retry (fun _ => OResp.ok "x L# y".toList) 0 "raw".toList).2 = 1 ∧
    hasSubstr "L#".toList
      ((invoke_with_retry (fun _ => OResp.ok "x L# y".toList) 0 "raw".toList).1) = true := by
  constructor
  · decide
  · decide

/-- Claim C2 (amended): the oracle is called once and its output
normalised; a second call — with the same original raw input — happens
if and only if the normalised first output matches `\bL#\b`, i.e. holds
an `L#` at a word boundary with a word character right after the `#`
(not merely `L#` anywhere); the second normalised result is returned
regardless of whether the marker persists, and the oracle is never
called more than twice.  In particular an oracle stub always returning
text that matches `\bL#\b` is called exactly twice and its second
result (stripped and normalised) is returned. -/
theorem c2_retry_rule :
    (∀ (orc : Nat → OResp) (k : Nat) (raw : List Char),
      ((invoke_with_retry orc k raw).2 = k + 1 ∨
        (invoke_with_retry orc k raw).2 = k + 2) ∧
      ((invoke_with_retry orc k raw).2 = k + 2 ↔
        hasLHashWB (normalise (genResp (orc k) raw)) = true) ∧
      (hasLHashWB (normalise (genResp (orc k) raw)) = true →
        (invoke_with_retry orc k raw).1 = normalise (genResp (orc (k + 1)) raw)) ∧
      (hasLHashWB (normalise (genResp (orc k) raw)) = false →
        (invoke_with_retry orc k raw).1 = normalise (genResp (orc k) raw))) ∧
    (∀ (s raw : List Char), hasLHashWB (normalise (strip s)) = true →
      invoke_with_retry (fun _ => OResp.ok s) 0 raw = (normalise (strip s), 2)) := by
  constructor
  · intro orc k raw
    by_cases h : hasLHashWB (normalise (genResp (orc k) raw)) = true
    · refine ⟨Or.inr ?_, ?_, ?_, ?_⟩
      · simp [invoke_with_retry, h]
      · simp [invoke_with_retry, h]
      · intro _; simp [invoke_with_retry, h]
      · intro h'; simp [h] at h'
    · have h' : hasLHashWB (normalise (genResp (orc k) raw)) = false :=
        Bool.eq_false_iff.mpr h
      refine ⟨Or.inl ?_, ?_, ?_, ?_⟩
      · simp [invoke_with_retry, h']
      · simp [invoke_with_retry, h']
      · intro hh; simp [h'] at hh
      · intro _; simp [invoke_with_retry, h']
  · intro s raw h
    simp [invoke_with_retry, genResp, h]

/-- Claim C2, witness: the amended rule evaluated with a stub whose
answer `L#3` does match `\bL#\b` — two calls, second result returned —
and the general clauses at a concrete marker-free oracle. -/
theorem c2_retry_rule_witness :
    invoke_with_retry (fun _ => OResp.ok "L#3".toList) 0 "raw".toList =
      (normalise (strip "L#3".toList), 2) ∧
    (invoke_with_retry (fun _ => OResp.ok "fine".toList) 0 "raw".toList).2 = 0 + 1 := by
  constructor
  · exact c2_retry_rule.2 "L#3".toList "raw".toList (by decide)
  · have h := (c2_retry_rule.1 (fun _ => OResp.ok "fine".toList) 0 "raw".toList).2.1
    have hm : hasLHashWB
        (normalise (genResp ((fun _ => OResp.ok "fine".toList) 0) "raw".toList)) = false := by
      decide
    rcases (c2_retry_rule.1 (fun _ => OResp.ok "fine".toList) 0 "raw".toList).1 with h1 | h2
    · exact h1
    · rw [h] at h2; rw [h2] at hm; cases hm

/-! ## Claim C1 — the language order list -/

/-- `filterMap` with a guard-and-tag function keeps exactly the filtered
keys, in order. -/
theorem guardMap_map_fst {α β : Type} (p : α → Bool) (g : α → β) :
    ∀ l : List α,
      ((l.filterMap fun a => if p a then some (a, g a) else none).map Prod.fst) =
        l.filter p := by
  intro l
  induction l with
  | nil => rfl
  | cons a t ih =>
    by_cases h : p a <;> simp [List.filterMap_cons, h, List.filter_cons, ih]

/-- Membership in a guard-and-tag `filterMap`. -/
theorem mem_guardMap {α β : Type} [DecidableEq α] [DecidableEq β]
    (p : α → Bool) (g : α → β) (l : List α) (a : α) (b : β) :
    (a, b) ∈ (l.filterMap fun x => if p x then some (x, g x) else none) ↔
      a ∈ l ∧ p a = true ∧ b = g a := by
  rw [List.mem_filterMap]
  constructor
  · rintro ⟨x, hx, hfx⟩
    by_cases h : p x
    · rw [if_pos h] at hfx
      have h2 := Option.some.inj hfx
      have hxa : x = a := congrArg Prod.fst h2
      subst hxa
      have hgb : g x = b := congrArg Prod.snd h2
      exact ⟨hx, h, hgb.symm⟩
    · rw [if_neg h] at hfx; cases hfx
  · rintro ⟨ha, hp, rfl⟩
    exact ⟨a, ha, by rw [if_pos hp]⟩

/-- The bulk per-record loop in guard-and-tag form. -/
theorem buildResultMap_eq (oracle : List Char → OResp) (lo : List String)
    (rd : LangMap) :
    buildResultMap oracle lo rd =
      lo.filterMap fun lang =>
        if langKept rd lang then
          some (lang, transformBlock oracle (strip (lookupD rd lang)))
        else none := by
  unfold buildResultMap
  congr 1
  funext lang
  by_cases h1 : (strip (lookupD rd lang)).isEmpty
  · simp [h1, langKept]
  · by_cases h2 : has_markdown (strip (lookupD rd lang)) <;>
      simp [h1, h2, langKept]

/-- The cleaner per-record loop in guard-and-tag form. -/
theorem cleanerLangToMd_eq (oracle : List Char → OResp) (lo : List String)
    (rd : LangMap) :
    cleanerLangToMd oracle lo rd =
      lo.filterMap fun lang =>
        if !(strip (lookupD rd lang)).isEmpty then
          some (lang, normalise (generate_response oracle (strip (lookupD rd lang))))
        else none := by
  unfold cleanerLangToMd
  congr 1
  funext lang
  by_cases h1 : (strip (lookupD rd lang)).isEmpty <;> simp [h1]

/-- Claim C1, counterexample: a record whose description holds a single
non-empty, markdown-bearing block under the code `pt` — absent from the
fixed list — produces an empty result map in both per-language loops,
and the bulk driver consequently skips the record (`updated = 0`): the
block is dropped because its code is not listed. -/
theorem c1_unlisted_lang_counterexample :
    strip (lookupD [("pt", "# Ciao".toList)] "pt") ≠ [] ∧
    has_markdown (strip (lookupD [("pt", "# Ciao".toList)] "pt")) = true ∧
    buildResultMap (fun _ => OResp.ok "out".toList) LANG_ORDER
      [("pt", "# Ciao".toList)] = [] ∧
    cleanerLangToMd (fun _ => OResp.ok "out".toList) LANG_ORDER
      [("pt", "# Ciao".toList)] = [] ∧
    (produceMarkdownInBulk (fun _ => OResp.ok "out".toList) (fun _ => false)
        LANG_ORDER ⟨true, none, false, 1⟩
        [⟨1, "1", Desc.dict [("pt", "# Ciao".toList)], Blob.null⟩]).2 =
      ⟨1, 0, 0⟩ := by
  refine ⟨by decide, by decide, by decide, by decide, by decide⟩

/-- Claim C1 (amended): the fixed priority-ordered language list
determines both the processing order and the set of language codes that
are examined at all.  The keys of the produced mapping are exactly the
listed languages that pass the per-language check, in list order; every
produced entry's language is in the list (so a block whose code is
absent from the list is dropped without being classified or
transformed); and every listed language with non-empty markdown-bearing
text yields its transformed entry.  The CSV cleaner behaves the same
with its weaker non-empty-only check. -/
theorem c1_lang_order_scope (oracle : List Char → OResp) (lo : List String)
    (rd : LangMap) :
    ((buildResultMap oracle lo rd).map Prod.fst = lo.filter (langKept rd)) ∧
    (∀ lang v, (lang, v) ∈ buildResultMap oracle lo rd → lang ∈ lo) ∧
    (∀ lang, lang ∈ lo → langKept rd lang = true →
      (lang, transformBlock oracle (strip (lookupD rd lang))) ∈
        buildResultMap oracle lo rd) ∧
    ((cleanerLangToMd oracle lo rd).map Prod.fst =
      lo.filter fun lang => !(strip (lookupD rd lang)).isEmpty) := by
  refine ⟨?_, ?_, ?_, ?_⟩
  · rw [buildResultMap_eq]; exact guardMap_map_fst _ _ lo
  · intro lang v h
    rw [buildResultMap_eq] at h
    exact ((mem_guardMap _ _ lo lang v).mp h).1
  · intro lang hmem hkept
    rw [buildResultMap_eq]
    exact (mem_guardMap _ _ lo lang _).mpr ⟨hmem, hkept, rfl⟩
  · rw [cleanerLangToMd_eq]; exact guardMap_map_fst _ _ lo

/-- Claim C1, witness: the amended statement instantiated on a concrete
record holding a listed language (kept, in order) and checked by
evaluation. -/
theorem c1_lang_order_scope_witness :
    ("fr", transformBlock (fun _ => OResp.ok "out".toList)
        (strip (lookupD [("fr", "# Bon".toList)] "fr"))) ∈
      buildResultMap (fun _ => OResp.ok "out".toList) LANG_ORDER
        [("fr", "# Bon".toList)] := by
  exact (c1_lang_order_scope (fun _ => OResp.ok "out".toList) LANG_ORDER
    [("fr", "# Bon".toList)]).2.2.1 "fr" (by decide) (by decide)

/-! ## Claim C3 — the absent-blob shapes of skip-mode -/

/-- Claim C3, counterexample: the CSV import driver skips a record whose
transformed blob is an empty object or an empty string (only SQL null
passes its check), and the GPT bulk driver does not skip the
two-character string `"{}"` although that is not one of the claim's
three absent shapes; concretely, a CSV row targeting a store record
whose blob is the empty object is skipped (`updated = 0`, store
untouched). -/
theorem c3_skip_shapes_counterexample :
    dbSkipDone (some (Blob.obj [])) = true ∧
    dbSkipDone (some (Blob.str [])) = true ∧
    aiSkipDone (Blob.str ("\x7b\x7d".toList)) = false ∧
    (produceRoutesMarkdownInBulk (fun _ => false) true false none
        [⟨"7".toList, "x".toList⟩] [⟨7, "1", Desc.malformed, Blob.obj []⟩]) =
      ([⟨7, "1", Desc.malformed, Blob.obj []⟩], ⟨1, 0, 0⟩) := by
  refine ⟨by decide, by decide, by decide, by decide⟩

/-- Claim C3 (amended): the GPT bulk driver's skip check treats exactly
four shapes as "not yet done" — null, the empty object, the literal
string `"{}"`, and the empty string — and skips every other shape; the
CSV import driver treats only SQL null (or a missing row) as "not yet
done" and skips every non-null blob, including the empty object and the
empty string. -/
theorem c3_skip_shapes :
    (∀ b : Blob, aiSkipDone b = false ↔
      (b = Blob.null ∨ b = Blob.obj [] ∨ b = Blob.str ("\x7b\x7d".toList) ∨
        b = Blob.str [])) ∧
    (∀ ob : Option Blob, dbSkipDone ob = false ↔
      (ob = none ∨ ob = some Blob.null)) := by
  constructor
  · intro b
    cases b with
    | null => simp [aiSkipDone]
    | obj m => simp [aiSkipDone]
    | str s => simp [aiSkipDone]; tauto
  · intro ob
    cases ob with
    | none => simp [dbSkipDone]
    | some b => simp [dbSkipDone]

/-! ## Claim C5 — dry-run performs no persistence -/

/-- Under `dry_run = true` the GPT bulk row loop never touches the
store. -/
theorem aiBulkLoop_dry (oracle : List Char → OResp) (pf : Nat → Bool)
    (lo : List String) (cfg : BulkConfig) (hd : cfg.dryRun = true) :
    ∀ L store c, (aiBulkLoop oracle pf lo cfg L store c).1 = store := by
  intro L
  induction L with
  | nil => intro store c; rfl
  | cons row rest ih =>
    intro store c
    rw [aiBulkLoop]
    by_cases h0 : limitHit cfg.limit c.processed = true
    · rw [if_pos h0]
    · rw [if_neg h0]
      by_cases h1 : (cfg.skip && aiSkipDone row.aiDesc) = true
      · rw [if_pos h1]; exact ih store _
      · rw [if_neg h1]
        by_cases h2 : (parseDescription row.description).isEmpty = true
        · rw [if_pos h2]; exact ih store _
        · rw [if_neg h2]
          by_cases h3 :
              (buildResultMap oracle lo (parseDescription row.description)).isEmpty = true
          · rw [if_pos h3]; exact ih store _
          · rw [if_neg h3, if_pos hd]; exact ih store _

/-- Under `dry_run = true` the CSV import row loop never touches the
store. -/
theorem dbBulkLoop_dry (pf : Nat → Bool) (skip : Bool) (limit : Option Nat) :
    ∀ L store c, (dbBulkLoop pf skip true limit L store c).1 = store := by
  intro L
  induction L with
  | nil => intro store c; rfl
  | cons row rest ih =>
    intro store c
    rw [dbBulkLoop]
    by_cases h0 : limitHit limit c.processed = true
    · rw [if_pos h0]
    · rw [if_neg h0]
      by_cases h1 : (!(isDigits (strip row.idTxt))) = true
      · rw [if_pos h1]; exact ih store _
      · rw [if_neg h1]
        by_cases h2 : (strip row.descTxt).isEmpty = true
        · rw [if_pos h2]; exact ih store _
        · rw [if_neg h2]
          by_cases h3 :
              (skip && dbSkipDone (dbLookup store (natOfDigits (strip row.idTxt)))) = true
          · rw [if_pos h3]; exact ih store _
          · rw [if_neg h3, if_pos rfl]; exact ih store _

/-- Claim C5: with `dry_run = true`, neither bulk driver performs any
persistence — for every configuration, oracle, fault pattern, input and
store state, the store after the run is the store before it, whatever
the reported counters. -/
theorem c5_dry_run_no_persistence (oracle : List Char → OResp) (pf : Nat → Bool)
    (lo : List String) (skip : Bool) (limit : Option Nat) (startId : Nat)
    (store : List Route) (csv : List CsvRow) :
    (produceMarkdownInBulk oracle pf lo ⟨skip, limit, true, startId⟩ store).1 =
      store ∧
    (produceRoutesMarkdownInBulk pf skip true limit csv store).1 = store := by
  constructor
  · exact aiBulkLoop_dry oracle pf lo ⟨skip, limit, true, startId⟩ rfl _ store _
  · exact dbBulkLoop_dry pf skip limit csv store _

/-! ## Claim C10 — counter invariants -/

/-- The UPDATE rewrites blobs only, so the id column is untouched. -/
theorem updateStore_map_id (store : List Route) (rid : Nat) (b : Blob) :
    (updateStore store rid b).map Route.id = store.map Route.id := by
  unfold updateStore
  rw [List.map_map]
  refine List.map_congr_left ?_
  intro r _
  by_cases h : r.id = rid <;> simp [h]

/-- With pairwise-distinct ids, an UPDATE keyed by id matches at most
one row. -/
theorem countId_le_one (store : List Route)
    (h : (store.map Route.id).Nodup) (rid : Nat) : countId store rid ≤ 1 := by
  induction store with
  | nil => simp [countId]
  | cons r t ih =>
    rw [List.map_cons, List.nodup_cons] at h
    unfold countId
    rw [List.filter_cons]
    by_cases hr : (r.id == rid) = true
    · rw [if_pos hr]
      have hrid : r.id = rid := by simpa using hr
      have ht : t.filter (fun x => x.id == rid) = [] := by
        rw [List.filter_eq_nil_iff]
        intro x hx hmatch
        have hxid : x.id = rid := by simpa using hmatch
        apply h.1
        rw [hrid, ← hxid]
        exact List.mem_map_of_mem Route.id hx
      simp [ht]
    · rw [if_neg hr]
      exact ih h.2

/-- Per-iteration accounting of the GPT bulk loop: `updated + failed`
grows at most as fast as `processed`, `processed` never decreases, and
a configured limit caps it. -/
theorem aiBulkLoop_counts (oracle : List Char → OResp) (pf : Nat → Bool)
    (lo : List String) (cfg : BulkConfig) :
    ∀ (L store : List Route) (c : BulkCounts),
      (store.map Route.id).Nodup →
      ((aiBulkLoop oracle pf lo cfg L store c).2.updated +
          (aiBulkLoop oracle pf lo cfg L store c).2.failed + c.processed ≤
        c.updated + c.failed + (aiBulkLoop oracle pf lo cfg L store c).2.processed) ∧
      c.processed ≤ (aiBulkLoop oracle pf lo cfg L store c).2.processed ∧
      ∀ n, cfg.limit = some n →
        (aiBulkLoop oracle pf lo cfg L store c).2.processed ≤ max c.processed n := by
  intro L
  induction L with
  | nil =>
    intro store c _
    refine ⟨?_, le_rfl, ?_⟩
    · dsimp [aiBulkLoop]; omega
    · intro n _
      exact Nat.le_max_left c.processed n
  | cons row rest ih =>
    intro store c hnd
    rw [aiBulkLoop]
    by_cases h0 : limitHit cfg.limit c.processed = true
    · rw [if_pos h0]
      refine ⟨?_, le_rfl, ?_⟩
      · dsimp; omega
      · intro n _
        exact Nat.le_max_left c.processed n
    · rw [if_neg h0]
      have hlim : ∀ n, cfg.limit = some n → c.processed < n := by
        intro n hn
        rw [hn] at h0
        by_contra hcp
        exact h0 (by simp [limitHit]; omega)
      by_cases h1 : (cfg.skip && aiSkipDone row.aiDesc) = true
      · rw [if_pos h1]
        obtain ⟨H1, H2, H3⟩ :=
          ih store ⟨c.processed + 1, c.updated, c.failed⟩ hnd
        refine ⟨by dsimp at H1 ⊢; omega, by dsimp at H2 ⊢; omega, ?_⟩
        intro n hn
        have := H3 n hn
        have hcp := hlim n hn
        dsimp at this ⊢
        omega
      · rw [if_neg h1]
        by_cases h2 : (parseDescription row.description).isEmpty = true
        · rw [if_pos h2]
          obtain ⟨H1, H2, H3⟩ :=
            ih store ⟨c.processed + 1, c.updated, c.failed⟩ hnd
          refine ⟨by dsimp at H1 ⊢; omega, by dsimp at H2 ⊢; omega, ?_⟩
          intro n hn
          have := H3 n hn
          have hcp := hlim n hn
          dsimp at this ⊢
          omega
        · rw [if_neg h2]
          by_cases h3 :
              (buildResultMap oracle lo
                (parseDescription row.description)).isEmpty = true
          · rw [if_pos h3]
            obtain ⟨H1, H2, H3⟩ :=
              ih store ⟨c.processed + 1, c.updated, c.failed⟩ hnd
            refine ⟨by dsimp at H1 ⊢; omega, by dsimp at H2 ⊢; omega, ?_⟩
            intro n hn
            have := H3 n hn
            have hcp := hlim n hn
            dsimp at this ⊢
            omega
          · rw [if_neg h3]
            by_cases h4 : cfg.dryRun = true
            · rw [if_pos h4]
              obtain ⟨H1, H2, H3⟩ :=
                ih store ⟨c.processed + 1, c.updated, c.failed⟩ hnd
              refine ⟨by dsimp at H1 ⊢; omega, by dsimp at H2 ⊢; omega, ?_⟩
              intro n hn
              have := H3 n hn
              have hcp := hlim n hn
              dsimp at this ⊢
              omega
            · rw [if_neg h4]
              by_cases h5 : pf row.id = true
              · rw [if_pos h5]
                obtain ⟨H1, H2, H3⟩ :=
                  ih store ⟨c.processed + 1, c.updated, c.failed + 1⟩ hnd
                refine ⟨by dsimp at H1 ⊢; omega, by dsimp at H2 ⊢; omega, ?_⟩
                intro n hn
                have := H3 n hn
                have hcp := hlim n hn
                dsimp at this ⊢
                omega
              · rw [if_neg h5]
                have hnd2 :
                    ((updateStore store row.id (Blob.obj
                      (buildResultMap oracle lo
                        (parseDescription row.description)))).map Route.id).Nodup := by
                  rw [updateStore_map_id]; exact hnd
                have hcnt : countId store row.id ≤ 1 := countId_le_one store hnd row.id
                obtain ⟨H1, H2, H3⟩ :=
                  ih (updateStore store row.id (Blob.obj
                      (buildResultMap oracle lo (parseDescription row.description))))
                    ⟨c.processed + 1, c.updated + countId store row.id, c.failed⟩ hnd2
                refine ⟨by dsimp at H1 ⊢; omega, by dsimp at H2 ⊢; omega, ?_⟩
                intro n hn
                have := H3 n hn
                have hcp := hlim n hn
                dsimp at this ⊢
                omega

/-- Per-iteration accounting of the CSV import loop, as for the GPT
bulk loop. -/
theorem dbBulkLoop_counts (pf : Nat → Bool) (skip dryRun : Bool)
    (limit : Option Nat) :
    ∀ (L : List CsvRow) (store : List Route) (c : BulkCounts),
      (store.map Route.id).Nodup →
      ((dbBulkLoop pf skip dryRun limit L store c).2.updated +
          (dbBulkLoop pf skip dryRun limit L store c).2.failed + c.processed ≤
        c.updated + c.failed +
          (dbBulkLoop pf skip dryRun limit L store c).2.processed) ∧
      c.processed ≤ (dbBulkLoop pf skip dryRun limit L store c).2.processed ∧
      ∀ n, limit = some n →
        (dbBulkLoop pf skip dryRun limit L store c).2.processed ≤
          max c.processed n := by
  intro L
  induction L with
  | nil =>
    intro store c _
    refine ⟨?_, le_rfl, ?_⟩
    · dsimp [dbBulkLoop]; omega
    · intro n _
      exact Nat.le_max_left c.processed n
  | cons row rest ih =>
    intro store c hnd
    rw [dbBulkLoop]
    by_cases h0 : limitHit limit c.processed = true
    · rw [if_pos h0]
      refine ⟨?_, le_rfl, ?_⟩
      · dsimp; omega
      · intro n _
        exact Nat.le_max_left c.processed n
    · rw [if_neg h0]
      have hlim : ∀ n, limit = some n → c.processed < n := by
        intro n hn
        rw [hn] at h0
        by_contra hcp
        exact h0 (by simp [limitHit]; omega)
      by_cases h1 : (!(isDigits (strip row.idTxt))) = true
      · rw [if_pos h1]
        obtain ⟨H1, H2, H3⟩ :=
          ih store ⟨c.processed + 1, c.updated, c.failed⟩ hnd
        refine ⟨by dsimp at H1 ⊢; omega, by dsimp at H2 ⊢; omega, ?_⟩
        intro n hn
        have := H3 n hn
        have hcp := hlim n hn
        dsimp at this ⊢
        omega
      · rw [if_neg h1]
        by_cases h2 : (strip row.descTxt).isEmpty = true
        · rw [if_pos h2]
          obtain ⟨H1, H2, H3⟩ :=
            ih store ⟨c.processed + 1, c.updated, c.failed⟩ hnd
          refine ⟨by dsimp at H1 ⊢; omega, by dsimp at H2 ⊢; omega, ?_⟩
          intro n hn
          have := H3 n hn
          have hcp := hlim n hn
          dsimp at this ⊢
          omega
        · rw [if_neg h2]
          by_cases h3 :
              (skip && dbSkipDone
                (dbLookup store (natOfDigits (strip row.idTxt)))) = true
          · rw [if_pos h3]
            obtain ⟨H1, H2, H3⟩ :=
              ih store ⟨c.processed + 1, c.updated, c.failed⟩ hnd
            refine ⟨by dsimp at H1 ⊢; omega, by dsimp at H2 ⊢; omega, ?_⟩
            intro n hn
            have := H3 n hn
            have hcp := hlim n hn
            dsimp at this ⊢
            omega
          · rw [if_neg h3]
            by_cases h4 : dryRun = true
            · rw [if_pos h4]
              obtain ⟨H1, H2, H3⟩ :=
                ih store ⟨c.processed + 1, c.updated, c.failed⟩ hnd
              refine ⟨by dsimp at H1 ⊢; omega, by dsimp at H2 ⊢; omega, ?_⟩
              intro n hn
              have := H3 n hn
              have hcp := hlim n hn
              dsimp at this ⊢
              omega
            · rw [if_neg h4]
              by_cases h5 : pf (natOfDigits (strip row.idTxt)) = true
              · rw [if_pos h5]
                obtain ⟨H1, H2, H3⟩ :=
                  ih store ⟨c.processed + 1, c.updated, c.failed + 1⟩ hnd
                refine ⟨by dsimp at H1 ⊢; omega, by dsimp at H2 ⊢; omega, ?_⟩
                intro n hn
                have := H3 n hn
                have hcp := hlim n hn
                dsimp at this ⊢
                omega
              · rw [if_neg h5]
                have hnd2 :
                    ((updateStore store (natOfDigits (strip row.idTxt))
                      (Blob.str (strip row.descTxt))).map Route.id).Nodup := by
                  rw [updateStore_map_id]; exact hnd
                have hcnt : countId store (natOfDigits (strip row.idTxt)) ≤ 1 :=
                  countId_le_one store hnd _
                obtain ⟨H1, H2, H3⟩ :=
                  ih (updateStore store (natOfDigits (strip row.idTxt))
                      (Blob.str (strip row.descTxt)))
                    ⟨c.processed + 1,
                      c.updated + countId store (natOfDigits (strip row.idTxt)),
                      c.failed⟩ hnd2
                refine ⟨by dsimp at H1 ⊢; omega, by dsimp at H2 ⊢; omega, ?_⟩
                intro n hn
                have := H3 n hn
                have hcp := hlim n hn
                dsimp at this ⊢
                omega

/-- Claim C10: at the end of every bulk run of either driver, with
pairwise-distinct record identifiers in the store, the aggregate
counters satisfy `failed ≤ processed`, `updated ≤ processed - failed`,
and, when a limit is configured, `processed ≤ limit`. -/
theorem c10_counter_invariants (oracle : List Char → OResp) (pf pf2 : Nat → Bool)
    (lo : List String) (cfg : BulkConfig) (skip dryRun : Bool)
    (limit : Option Nat) (store : List Route) (csv : List CsvRow)
    (hnd : (store.map Route.id).Nodup) :
    ((produceMarkdownInBulk oracle pf lo cfg store).2.failed ≤
        (produceMarkdownInBulk oracle pf lo cfg store).2.processed ∧
      (produceMarkdownInBulk oracle pf lo cfg store).2.updated ≤
        (produceMarkdownInBulk oracle pf lo cfg store).2.processed -
          (produceMarkdownInBulk oracle pf lo cfg store).2.failed ∧
      ∀ n, cfg.limit = some n →
        (produceMarkdownInBulk oracle pf lo cfg store).2.processed ≤ n) ∧
    ((produceRoutesMarkdownInBulk pf2 skip dryRun limit csv store).2.failed ≤
        (produceRoutesMarkdownInBulk pf2 skip dryRun limit csv store).2.processed ∧
      (produceRoutesMarkdownInBulk pf2 skip dryRun limit csv store).2.updated ≤
        (produceRoutesMarkdownInBulk pf2 skip dryRun limit csv store).2.processed -
          (produceRoutesMarkdownInBulk pf2 skip dryRun limit csv store).2.failed ∧
      ∀ n, limit = some n →
        (produceRoutesMarkdownInBulk pf2 skip dryRun limit csv store).2.processed ≤
          n) := by
  constructor
  · unfold produceMarkdownInBulk
    obtain ⟨H1, H2, H3⟩ :=
      aiBulkLoop_counts oracle pf lo cfg (fetchRows store cfg.startId) store
        ⟨0, 0, 0⟩ hnd
    refine ⟨by dsimp at H1; omega, by dsimp at H1; omega, ?_⟩
    intro n hn
    have := H3 n hn
    simpa using this
  · unfold produceRoutesMarkdownInBulk
    obtain ⟨H1, H2, H3⟩ :=
      dbBulkLoop_counts pf2 skip dryRun limit csv store ⟨0, 0, 0⟩ hnd
    refine ⟨by dsimp at H1; omega, by dsimp at H1; omega, ?_⟩
    intro n hn
    have := H3 n hn
    simpa using this

/-- Claim C10, witness: the invariants evaluated on a concrete store,
CSV and fault pattern, with a limit of one. -/
theorem c10_counter_invariants_witness :
    (produceMarkdownInBulk (fun _ => OResp.ok "ok".toList) (fun _ => true)
        LANG_ORDER ⟨true, some 1, false, 1⟩
        [⟨1, "1", Desc.dict [("fr", "# a".toList)], Blob.null⟩,
          ⟨2, "1", Desc.dict [("fr", "# b".toList)], Blob.null⟩]).2.processed ≤ 1 ∧
    (produceRoutesMarkdownInBulk (fun _ => false) true false (some 1)
        [⟨"1".toList, "x".toList⟩, ⟨"2".toList, "y".toList⟩]
        [⟨1, "1", Desc.malformed, Blob.null⟩,
          ⟨2, "1", Desc.malformed, Blob.null⟩]).2.processed ≤ 1 := by
  constructor
  · exact (c10_counter_invariants (fun _ => OResp.ok "ok".toList) (fun _ => true)
      (fun _ => false) LANG_ORDER ⟨true, some 1, false, 1⟩ true false (some 1)
      [⟨1, "1", Desc.dict [("fr", "# a".toList)], Blob.null⟩,
        ⟨2, "1", Desc.dict [("fr", "# b".toList)], Blob.null⟩]
      [⟨"1".toList, "x".toList⟩, ⟨"2".toList, "y".toList⟩]
      (by decide)).1.2.2 1 rfl
  · exact (c10_counter_invariants (fun _ => OResp.ok "ok".toList) (fun _ => true)
      (fun _ => false) LANG_ORDER ⟨true, some 1, false, 1⟩ true false (some 1)
      [⟨1, "1", Desc.malformed, Blob.null⟩, ⟨2, "1", Desc.malformed, Blob.null⟩]
      [⟨"1".toList, "x".toList⟩, ⟨"2".toList, "y".toList⟩]
      (by decide)).2.2.2 1 rfl

/-! ## Claim C7 — per-record failure isolation -/

/-- The row loop never changes the number of store rows. -/
theorem aiBulkLoop_length (oracle : List Char → OResp) (pf : Nat → Bool)
    (lo : List String) (cfg : BulkConfig) :
    ∀ L store c, (aiBulkLoop oracle pf lo cfg L store c).1.length = store.length := by
  intro L
  induction L with
  | nil => intro store c; rfl
  | cons row rest ih =>
    intro store c
    rw [aiBulkLoop]
    by_cases h0 : limitHit cfg.limit c.processed = true
    · rw [if_pos h0]
    · rw [if_neg h0]
      by_cases h1 : (cfg.skip && aiSkipDone row.aiDesc) = true
      · rw [if_pos h1]; exact ih store _
      · rw [if_neg h1]
        by_cases h2 : (parseDescription row.description).isEmpty = true
        · rw [if_pos h2]; exact ih store _
        · rw [if_neg h2]
          by_cases h3 :
              (buildResultMap oracle lo (parseDescription row.description)).isEmpty = true
          · rw [if_pos h3]; exact ih store _
          · rw [if_neg h3]
            by_cases h4 : cfg.dryRun = true
            · rw [if_pos h4]; exact ih store _
            · rw [if_neg h4]
              by_cases h5 : pf row.id = true
              · rw [if_pos h5]; exact ih store _
              · rw [if_neg h5]
                rw [ih]
                simp [updateStore]

/-- Frame property of the fault path: a store row whose id is marked as
always-faulting is never rewritten by the GPT bulk loop — the rollback
leaves exactly its prior state in place. -/
theorem aiBulkLoop_pf_frame (oracle : List Char → OResp) (pf : Nat → Bool)
    (lo : List String) (cfg : BulkConfig) :
    ∀ L store c i r, store.get? i = some r → pf r.id = true →
      (aiBulkLoop oracle pf lo cfg L store c).1.get? i = some r := by
  intro L
  induction L with
  | nil => intro store c i r hr _; exact hr
  | cons row rest ih =>
    intro store c i r hr hpf
    rw [aiBulkLoop]
    by_cases h0 : limitHit cfg.limit c.processed = true
    · rw [if_pos h0]; exact hr
    · rw [if_neg h0]
      by_cases h1 : (cfg.skip && aiSkipDone row.aiDesc) = true
      · rw [if_pos h1]; exact ih store _ i r hr hpf
      · rw [if_neg h1]
        by_cases h2 : (parseDescription row.description).isEmpty = true
        · rw [if_pos h2]; exact ih store _ i r hr hpf
        · rw [if_neg h2]
          by_cases h3 :
              (buildResultMap oracle lo (parseDescription row.description)).isEmpty = true
          · rw [if_pos h3]; exact ih store _ i r hr hpf
          · rw [if_neg h3]
            by_cases h4 : cfg.dryRun = true
            · rw [if_pos h4]; exact ih store _ i r hr hpf
            · rw [if_neg h4]
              by_cases h5 : pf row.id = true
              · rw [if_pos h5]; exact ih store _ i r hr hpf
              · rw [if_neg h5]
                have hne : r.id ≠ row.id := by
                  intro he
                  rw [he] at hpf
                  exact h5 hpf
                have hr2 :
                    (updateStore store row.id (Blob.obj
                      (buildResultMap oracle lo
                        (parseDescription row.description)))).get? i = some r := by
                  unfold updateStore
                  rw [List.get?_map, hr]
                  simp [hne]
                exact ih _ _ i r hr2 hpf

/-- With no limit configured, the loop processes every fetched row —
faults included, the run never aborts early. -/
theorem aiBulkLoop_processed_none (oracle : List Char → OResp) (pf : Nat → Bool)
    (lo : List String) (cfg : BulkConfig) (hl : cfg.limit = none) :
    ∀ L store c,
      (aiBulkLoop oracle pf lo cfg L store c).2.processed =
        c.processed + L.length := by
  intro L
  induction L with
  | nil => intro store c; simp [aiBulkLoop]
  | cons row rest ih =>
    intro store c
    rw [aiBulkLoop]
    have h0 : limitHit cfg.limit c.processed = false := by
      rw [hl]; rfl
    rw [if_neg (by rw [h0]; exact Bool.false_ne_true)]
    by_cases h1 : (cfg.skip && aiSkipDone row.aiDesc) = true
    · rw [if_pos h1, ih]; dsimp; omega
    · rw [if_neg h1]
      by_cases h2 : (parseDescription row.description).isEmpty = true
      · rw [if_pos h2, ih]; dsimp; omega
      · rw [if_neg h2]
        by_cases h3 :
            (buildResultMap oracle lo (parseDescription row.description)).isEmpty = true
        · rw [if_pos h3, ih]; dsimp; omega
        · rw [if_neg h3]
          by_cases h4 : cfg.dryRun = true
          · rw [if_pos h4, ih]; dsimp; omega
          · rw [if_neg h4]
            by_cases h5 : pf row.id = true
            · rw [if_pos h5, ih]; dsimp; omega
            · rw [if_neg h5, ih]; dsimp; omega

/-- Frame property of the fault path of the CSV import loop: a store
row whose id is marked as always-faulting is never rewritten — the
rollback leaves exactly its prior state in place. -/
theorem dbBulkLoop_pf_frame (pf : Nat → Bool) (skip dryRun : Bool)
    (limit : Option Nat) :
    ∀ L store c i r, store.get? i = some r → pf r.id = true →
      (dbBulkLoop pf skip dryRun limit L store c).1.get? i = some r := by
  intro L
  induction L with
  | nil => intro store c i r hr _; exact hr
  | cons row rest ih =>
    intro store c i r hr hpf
    rw [dbBulkLoop]
    by_cases h0 : limitHit limit c.processed = true
    · rw [if_pos h0]; exact hr
    · rw [if_neg h0]
      by_cases h1 : (!(isDigits (strip row.idTxt))) = true
      · rw [if_pos h1]; exact ih store _ i r hr hpf
      · rw [if_neg h1]
        by_cases h2 : (strip row.descTxt).isEmpty = true
        · rw [if_pos h2]; exact ih store _ i r hr hpf
        · rw [if_neg h2]
          by_cases h3 :
              (skip && dbSkipDone
                (dbLookup store (natOfDigits (strip row.idTxt)))) = true
          · rw [if_pos h3]; exact ih store _ i r hr hpf
          · rw [if_neg h3]
            by_cases h4 : dryRun = true
            · rw [if_pos h4]; exact ih store _ i r hr hpf
            · rw [if_neg h4]
              by_cases h5 : pf (natOfDigits (strip row.idTxt)) = true
              · rw [if_pos h5]; exact ih store _ i r hr hpf
              · rw [if_neg h5]
                have hne : r.id ≠ natOfDigits (strip row.idTxt) := by
                  intro he
                  rw [he] at hpf
                  exact h5 hpf
                have hr2 :
                    (updateStore store (natOfDigits (strip row.idTxt))
                      (Blob.str (strip row.descTxt))).get? i = some r := by
                  unfold updateStore
                  rw [List.get?_map, hr]
                  simp [hne]
                exact ih _ _ i r hr2 hpf

/-- With no limit configured, the CSV import loop processes every CSV
row — faults included, the run never aborts early. -/
theorem dbBulkLoop_processed_none (pf : Nat → Bool) (skip dryRun : Bool) :
    ∀ L store c,
      (dbBulkLoop pf skip dryRun none L store c).2.processed =
        c.processed + L.length := by
  intro L
  induction L with
  | nil => intro store c; simp [dbBulkLoop]
  | cons row rest ih =>
    intro store c
    rw [dbBulkLoop]
    rw [if_neg (show ¬limitHit none c.processed = true from
      fun h => Bool.false_ne_true h)]
    by_cases h1 : (!(isDigits (strip row.idTxt))) = true
    · rw [if_pos h1, ih]; dsimp; omega
    · rw [if_neg h1]
      by_cases h2 : (strip row.descTxt).isEmpty = true
      · rw [if_pos h2, ih]; dsimp; omega
      · rw [if_neg h2]
        by_cases h3 :
            (skip && dbSkipDone
              (dbLookup store (natOfDigits (strip row.idTxt)))) = true
        · rw [if_pos h3, ih]; dsimp; omega
        · rw [if_neg h3]
          by_cases h4 : dryRun = true
          · rw [if_pos h4, ih]; dsimp; omega
          · rw [if_neg h4]
            by_cases h5 : pf (natOfDigits (strip row.idTxt)) = true
            · rw [if_pos h5, ih]; dsimp; omega
            · rw [if_neg h5, ih]; dsimp; omega

/-- The three-record store of claim C7's concrete scenario. -/
def c7store : List Route :=
  [⟨1, "1", Desc.dict [("fr", "# t".toList)], Blob.null⟩,
    ⟨2, "1", Desc.dict [("fr", "# t".toList)], Blob.null⟩,
    ⟨3, "1", Desc.dict [("fr", "# t".toList)], Blob.null⟩]

/-- The three-row CSV of claim C7's concrete scenario for the CSV
driver. -/
def c7csv : List CsvRow :=
  [⟨"1".toList, "x1".toList⟩, ⟨"2".toList, "x2".toList⟩,
    ⟨"3".toList, "x3".toList⟩]

/-- Claim C7, for both batch drivers: a persistence fault on one record
rolls back only that record (every store row with an always-faulting id
keeps its prior state bit for bit), the run continues to the end
(without a limit, `processed` equals the full fetched/CSV count no
matter which records fault), and in the concrete three-record scenario
with record 2 faulting each driver reports
`processed = 3, updated = 2, failed = 1`, records 1 and 3 hold their
persisted blobs and record 2 is unchanged. -/
theorem c7_failure_isolation :
    (∀ (oracle : List Char → OResp) (pf : Nat → Bool) (lo : List String)
        (skip : Bool) (startId : Nat) (store : List Route),
      (produceMarkdownInBulk oracle pf lo ⟨skip, none, false, startId⟩
          store).2.processed = (fetchRows store startId).length ∧
      (∀ i r, store.get? i = some r → pf r.id = true →
        (produceMarkdownInBulk oracle pf lo ⟨skip, none, false, startId⟩
            store).1.get? i = some r)) ∧
    produceMarkdownInBulk (fun _ => OResp.ok "ok".toList) (fun n => n == 2)
        LANG_ORDER ⟨true, none, false, 1⟩ c7store =
      ([⟨1, "1", Desc.dict [("fr", "# t".toList)],
          Blob.obj [("fr", "ok".toList)]⟩,
        ⟨2, "1", Desc.dict [("fr", "# t".toList)], Blob.null⟩,
        ⟨3, "1", Desc.dict [("fr", "# t".toList)],
          Blob.obj [("fr", "ok".toList)]⟩], ⟨3, 2, 1⟩) ∧
    (∀ (pf : Nat → Bool) (skip dryRun : Bool) (csv : List CsvRow)
        (store : List Route),
      (produceRoutesMarkdownInBulk pf skip dryRun none csv
          store).2.processed = csv.length ∧
      (∀ i r, store.get? i = some r → pf r.id = true →
        (produceRoutesMarkdownInBulk pf skip dryRun none csv
            store).1.get? i = some r)) ∧
    produceRoutesMarkdownInBulk (fun n => n == 2) true false none c7csv
        c7store =
      ([⟨1, "1", Desc.dict [("fr", "# t".toList)], Blob.str "x1".toList⟩,
        ⟨2, "1", Desc.dict [("fr", "# t".toList)], Blob.null⟩,
        ⟨3, "1", Desc.dict [("fr", "# t".toList)], Blob.str "x3".toList⟩],
        ⟨3, 2, 1⟩) := by
  refine ⟨?_, by decide, ?_, by decide⟩
  · intro oracle pf lo skip startId store
    constructor
    · unfold produceMarkdownInBulk
      have := aiBulkLoop_processed_none oracle pf lo ⟨skip, none, false, startId⟩
        rfl (fetchRows store startId) store ⟨0, 0, 0⟩
      simpa using this
    · intro i r hr hpf
      exact aiBulkLoop_pf_frame oracle pf lo ⟨skip, none, false, startId⟩
        (fetchRows store startId) store ⟨0, 0, 0⟩ i r hr hpf
  · intro pf skip dryRun csv store
    constructor
    · unfold produceRoutesMarkdownInBulk
      have := dbBulkLoop_processed_none pf skip dryRun csv store ⟨0, 0, 0⟩
      simpa using this
    · intro i r hr hpf
      exact dbBulkLoop_pf_frame pf skip dryRun none csv store ⟨0, 0, 0⟩
        i r hr hpf

/-- Claim C7, witness: the general clauses applied to the concrete
scenario of each driver — the faulting record 2 is returned unchanged
and each run processes all three records. -/
theorem c7_failure_isolation_witness :
    (produceMarkdownInBulk (fun _ => OResp.ok "ok".toList) (fun n => n == 2)
        LANG_ORDER ⟨true, none, false, 1⟩ c7store).1.get? 1 =
      some ⟨2, "1", Desc.dict [("fr", "# t".toList)], Blob.null⟩ ∧
    (produceMarkdownInBulk (fun _ => OResp.ok "ok".toList) (fun n => n == 2)
        LANG_ORDER ⟨true, none, false, 1⟩ c7store).2.processed =
      (fetchRows c7store 1).length ∧
    (produceRoutesMarkdownInBulk (fun n => n == 2) true false none c7csv
        c7store).1.get? 1 =
      some ⟨2, "1", Desc.dict [("fr", "# t".toList)], Blob.null⟩ ∧
    (produceRoutesMarkdownInBulk (fun n => n == 2) true false none c7csv
        c7store).2.processed = c7csv.length := by
  refine ⟨?_, ?_, ?_, ?_⟩
  · exact (c7_failure_isolation.1 (fun _ => OResp.ok "ok".toList) (fun n => n == 2)
      LANG_ORDER true 1 c7store).2 1
      ⟨2, "1", Desc.dict [("fr", "# t".toList)], Blob.null⟩ (by decide) (by decide)
  · exact (c7_failure_isolation.1 (fun _ => OResp.ok "ok".toList) (fun n => n == 2)
      LANG_ORDER true 1 c7store).1
  · exact (c7_failure_isolation.2.2.1 (fun n => n == 2) true false c7csv
      c7store).2 1
      ⟨2, "1", Desc.dict [("fr", "# t".toList)], Blob.null⟩ (by decide) (by decide)
  · exact (c7_failure_isolation.2.2.1 (fun n => n == 2) true false c7csv
      c7store).1

/-! ## Claim C4 — skip-mode idempotence -/

/-- The candidate condition of the snapshot query:
`status = '1' AND id >= start_id`. -/
def candCond (s : Nat) (r : Route) : Bool :=
  r.status == "1" && decide (s ≤ r.id)

/-- A record on which the skip-enabled loop performs no update: already
done, or unparsable/empty description, or an empty result map. -/
def noUpd (oracle : List Char → OResp) (lo : List String) (r : Route) : Bool :=
  aiSkipDone r.aiDesc || (parseDescription r.description).isEmpty ||
    (buildResultMap oracle lo (parseDescription r.description)).isEmpty

theorem mem_insertById (x r : Route) : ∀ l, x ∈ insertById r l ↔ x = r ∨ x ∈ l := by
  intro l
  induction l with
  | nil => simp [insertById]
  | cons y t ih =>
    rw [insertById]
    by_cases h : r.id ≤ y.id
    · rw [if_pos h]; simp
    · rw [if_neg h]
      simp only [List.mem_cons, ih]
      tauto

theorem mem_sortById (x : Route) : ∀ l, x ∈ sortById l ↔ x ∈ l := by
  intro l
  induction l with
  | nil => simp [sortById]
  | cons y t ih =>
    rw [sortById, mem_insertById]
    simp [ih]

theorem insertById_length (r : Route) : ∀ l, (insertById r l).length = l.length + 1 := by
  intro l
  induction l with
  | nil => rfl
  | cons y t ih =>
    rw [insertById]
    by_cases h : r.id ≤ y.id
    · rw [if_pos h]; rfl
    · rw [if_neg h]
      simp [ih]

theorem sortById_length : ∀ l, (sortById l).length = l.length := by
  intro l
  induction l with
  | nil => rfl
  | cons y t ih =>
    rw [sortById, insertById_length, ih]
    rfl

/-- The id/status/description skeleton of a record — everything the
loop reads from the snapshot and never writes. -/
def skel (r : Route) : Nat × String × Desc := (r.id, r.status, r.description)

theorem updateStore_map_skel (store : List Route) (rid : Nat) (b : Blob) :
    (updateStore store rid b).map skel = store.map skel := by
  unfold updateStore
  rw [List.map_map]
  refine List.map_congr_left ?_
  intro r _
  by_cases h : r.id = rid <;> simp [h, skel]

/-- The GPT bulk loop never changes any id, status or description. -/
theorem aiBulkLoop_skel (oracle : List Char → OResp) (pf : Nat → Bool)
    (lo : List String) (cfg : BulkConfig) :
    ∀ L store c, (aiBulkLoop oracle pf lo cfg L store c).1.map skel =
      store.map skel := by
  intro L
  induction L with
  | nil => intro store c; rfl
  | cons row rest ih =>
    intro store c
    rw [aiBulkLoop]
    by_cases h0 : limitHit cfg.limit c.processed = true
    · rw [if_pos h0]
    · rw [if_neg h0]
      by_cases h1 : (cfg.skip && aiSkipDone row.aiDesc) = true
      · rw [if_pos h1]; exact ih store _
      · rw [if_neg h1]
        by_cases h2 : (parseDescription row.description).isEmpty = true
        · rw [if_pos h2]; exact ih store _
        · rw [if_neg h2]
          by_cases h3 :
              (buildResultMap oracle lo (parseDescription row.description)).isEmpty = true
          · rw [if_pos h3]; exact ih store _
          · rw [if_neg h3]
            by_cases h4 : cfg.dryRun = true
            · rw [if_pos h4]; exact ih store _
            · rw [if_neg h4]
              by_cases h5 : pf row.id = true
              · rw [if_pos h5]; exact ih store _
              · rw [if_neg h5]
                rw [ih, updateStore_map_skel]

/-- Two stores with the same skeleton have the same number of
snapshot candidates. -/
theorem filter_length_skel (s : Nat) :
    ∀ (S S' : List Route), S.map skel = S'.map skel →
      (S.filter (candCond s)).length = (S'.filter (candCond s)).length := by
  intro S
  induction S with
  | nil =>
    intro S' h
    have : S' = [] := by
      cases S' with
      | nil => rfl
      | cons y t => simp [skel] at h
    rw [this]
  | cons x t ih =>
    intro S' h
    cases S' with
    | nil => simp [skel] at h
    | cons y t' =>
      rw [List.map_cons, List.map_cons] at h
      have hxy : skel x = skel y := (List.cons.injEq _ _ _ _ ▸ h).1
      have ht : t.map skel = t'.map skel := (List.cons.injEq _ _ _ _ ▸ h).2
      have hid : x.id = y.id := congrArg (fun p => p.1) hxy
      have hst : x.status = y.status := congrArg (fun p => p.2.1) hxy
      have hcond : candCond s x = candCond s y := by
        unfold candCond
        rw [hid, hst]
      rw [List.filter_cons, List.filter_cons, ← hcond]
      by_cases hc : candCond s x = true
      · rw [if_pos hc, if_pos hc]
        simp [ih t' ht]
      · rw [if_neg hc, if_neg hc]
        exact ih t' ht

/-- When every fetched row is a no-update row, the skip-enabled,
fault-free, non-dry loop only counts: the store is returned unchanged
and only `processed` advances. -/
theorem aiBulkLoop_noUpd (oracle : List Char → OResp) (lo : List String) (s : Nat) :
    ∀ L store c, (∀ row ∈ L, noUpd oracle lo row = true) →
      aiBulkLoop oracle (fun _ => false) lo ⟨true, none, false, s⟩ L store c =
        (store, ⟨c.processed + L.length, c.updated, c.failed⟩) := by
  intro L
  induction L with
  | nil => intro store c _; rfl
  | cons row rest ih =>
    intro store c hall
    have hrow := hall row (List.mem_cons_self row rest)
    have hrest : ∀ r ∈ rest, noUpd oracle lo r = true := fun r hr =>
      hall r (List.mem_cons_of_mem row hr)
    rw [aiBulkLoop]
    rw [if_neg (by exact Bool.false_ne_true)]
    by_cases h1 : ((true : Bool) && aiSkipDone row.aiDesc) = true
    · rw [if_pos h1, ih store _ hrest]
      dsimp only
      have : c.processed + 1 + rest.length = c.processed + (rest.length + 1) := by
        omega
      rw [this]
      rfl
    · rw [if_neg h1]
      by_cases h2 : (parseDescription row.description).isEmpty = true
      · rw [if_pos h2, ih store _ hrest]
        dsimp only
        have : c.processed + 1 + rest.length = c.processed + (rest.length + 1) := by
          omega
        rw [this]
        rfl
      · rw [if_neg h2]
        by_cases h3 :
            (buildResultMap oracle lo (parseDescription row.description)).isEmpty = true
        · rw [if_pos h3, ih store _ hrest]
          dsimp only
          have : c.processed + 1 + rest.length = c.processed + (rest.length + 1) := by
            omega
          rw [this]
          rfl
        · exfalso
          unfold noUpd at hrow
          have ha : aiSkipDone row.aiDesc = false := by
            rcases Bool.eq_false_or_eq_true (aiSkipDone row.aiDesc) with h | h
            · exact absurd (by simp [h]) h1
            · exact h
          rw [ha, Bool.false_or] at hrow
          have hsplit :
              (parseDescription row.description).isEmpty = true ∨
                (buildResultMap oracle lo
                  (parseDescription row.description)).isEmpty = true := by
            simpa using hrow
          rcases hsplit with h | h
          · exact h2 h
          · exact h3 h

/-- After a fault-free skip-enabled run, every candidate record left in
the store is a no-update record: it was either already done before the
run, just updated by it (hence now done), or carries no usable text. -/
theorem aiBulkLoop_post (oracle : List Char → OResp) (lo : List String) (s : Nat) :
    ∀ L store c,
      (∀ r ∈ store, candCond s r = true → noUpd oracle lo r = true ∨ r ∈ L) →
      ∀ r ∈ (aiBulkLoop oracle (fun _ => false) lo ⟨true, none, false, s⟩
          L store c).1,
        candCond s r = true → noUpd oracle lo r = true := by
  intro L
  induction L with
  | nil =>
    intro store c hinv r hr hc
    rcases hinv r hr hc with h | h
    · exact h
    · exact absurd h (List.not_mem_nil r)
  | cons row rest ih =>
    intro store c hinv
    rw [aiBulkLoop]
    rw [if_neg (by exact Bool.false_ne_true)]
    by_cases h1 : ((true : Bool) && aiSkipDone row.aiDesc) = true
    · rw [if_pos h1]
      refine ih store _ ?_
      intro r hr hc
      rcases hinv r hr hc with h | h
      · exact Or.inl h
      · rcases List.mem_cons.mp h with rfl | h
        · exact Or.inl (by unfold noUpd; simp at h1; simp [h1])
        · exact Or.inr h
    · rw [if_neg h1]
      by_cases h2 : (parseDescription row.description).isEmpty = true
      · rw [if_pos h2]
        refine ih store _ ?_
        intro r hr hc
        rcases hinv r hr hc with h | h
        · exact Or.inl h
        · rcases List.mem_cons.mp h with rfl | h
          · exact Or.inl (by unfold noUpd; simp [h2])
          · exact Or.inr h
      · rw [if_neg h2]
        by_cases h3 :
            (buildResultMap oracle lo (parseDescription row.description)).isEmpty = true
        · rw [if_pos h3]
          refine ih store _ ?_
          intro r hr hc
          rcases hinv r hr hc with h | h
          · exact Or.inl h
          · rcases List.mem_cons.mp h with rfl | h
            · exact Or.inl (by unfold noUpd; simp [h3])
            · exact Or.inr h
        · rw [if_neg h3]
          refine ih _ _ ?_
          intro r hr hc
          rcases List.mem_map.mp hr with ⟨x, hx, hfx⟩
          by_cases hxid : x.id = row.id
          · have hrm :
                (buildResultMap oracle lo (parseDescription row.description)) ≠ [] := by
              intro he
              exact h3 (by simp [he])
            refine Or.inl ?_
            rw [← hfx]
            unfold noUpd
            simp only [hxid, if_pos]
            have : aiSkipDone (Blob.obj
                (buildResultMap oracle lo (parseDescription row.description))) = true := by
              simp [aiSkipDone, hrm]
            simp [this]
          · rw [if_neg hxid] at hfx
            rw [← hfx]
            rcases hinv x hx (hfx ▸ hc) with h | h
            · exact Or.inl h
            · rcases List.mem_cons.mp h with rfl | h
              · exact absurd rfl hxid
              · exact Or.inr h

/-- Claim C4, counterexample: a store with one already-done candidate
record — the run reports `processed = 1` while the number of eligible
records in the spec's sense (status-active, beyond the offset, and
absent transformed blob under skip-mode) is `0`: `processed` counts
skip-checked rows, not eligible ones. -/
theorem c4_processed_counterexample :
    (produceMarkdownInBulk (fun _ => OResp.ok "ok".toList) (fun _ => false)
        LANG_ORDER ⟨true, none, false, 1⟩
        [⟨1, "1", Desc.dict [("fr", "# t".toList)],
          Blob.obj [("fr", "x".toList)]⟩]).2.processed = 1 ∧
    ([⟨1, "1", Desc.dict [("fr", "# t".toList)],
        Blob.obj [("fr", "x".toList)]⟩].filter (specEligible true 1)).length = 0 := by
  constructor
  · decide
  · decide

/-- Claim C4 (amended): running the bulk batch twice with skip-mode
enabled, no limit, no dry-run and no faults, with any oracle and any
store, yields zero `updated` (and zero `failed`) on the second run and
leaves the store of the first run untouched; on both runs `processed`
equals the number of fetched candidate rows (status-active with id at
or beyond the offset) — not the number of skip-eligible records, which
the already-done rows counted by `processed` may undercut. -/
theorem c4_skip_idempotence (oracle : List Char → OResp) (lo : List String)
    (s : Nat) (store : List Route) :
    (produceMarkdownInBulk oracle (fun _ => false) lo ⟨true, none, false, s⟩
        (produceMarkdownInBulk oracle (fun _ => false) lo ⟨true, none, false, s⟩
          store).1).2.updated = 0 ∧
    (produceMarkdownInBulk oracle (fun _ => false) lo ⟨true, none, false, s⟩
        (produceMarkdownInBulk oracle (fun _ => false) lo ⟨true, none, false, s⟩
          store).1).2.failed = 0 ∧
    (produceMarkdownInBulk oracle (fun _ => false) lo ⟨true, none, false, s⟩
        (produceMarkdownInBulk oracle (fun _ => false) lo ⟨true, none, false, s⟩
          store).1).1 =
      (produceMarkdownInBulk oracle (fun _ => false) lo ⟨true, none, false, s⟩
        store).1 ∧
    (produceMarkdownInBulk oracle (fun _ => false) lo ⟨true, none, false, s⟩
        store).2.processed = (store.filter (candCond s)).length ∧
    (produceMarkdownInBulk oracle (fun _ => false) lo ⟨true, none, false, s⟩
        (produceMarkdownInBulk oracle (fun _ => false) lo ⟨true, none, false, s⟩
          store).1).2.processed = (store.filter (candCond s)).length := by
  have hpost : ∀ r ∈ (produceMarkdownInBulk oracle (fun _ => false) lo
      ⟨true, none, false, s⟩ store).1,
      candCond s r = true → noUpd oracle lo r = true := by
    refine aiBulkLoop_post oracle lo s (fetchRows store s) store ⟨0, 0, 0⟩ ?_
    intro r hr hc
    refine Or.inr ?_
    unfold fetchRows
    rw [mem_sortById]
    exact List.mem_filter.mpr ⟨hr, hc⟩
  have hall : ∀ row ∈ fetchRows
      (produceMarkdownInBulk oracle (fun _ => false) lo ⟨true, none, false, s⟩
        store).1 s, noUpd oracle lo row = true := by
    intro row hrow
    unfold fetchRows at hrow
    rw [mem_sortById] at hrow
    exact hpost row (List.mem_filter.mp hrow).1 (List.mem_filter.mp hrow).2
  have hrun2 := aiBulkLoop_noUpd oracle lo s
    (fetchRows (produceMarkdownInBulk oracle (fun _ => false) lo
      ⟨true, none, false, s⟩ store).1 s)
    (produceMarkdownInBulk oracle (fun _ => false) lo ⟨true, none, false, s⟩
      store).1 ⟨0, 0, 0⟩ hall
  have hskel : (produceMarkdownInBulk oracle (fun _ => false) lo
      ⟨true, none, false, s⟩ store).1.map skel = store.map skel :=
    aiBulkLoop_skel oracle (fun _ => false) lo ⟨true, none, false, s⟩
      (fetchRows store s) store ⟨0, 0, 0⟩
  have hlen2 : (fetchRows (produceMarkdownInBulk oracle (fun _ => false) lo
      ⟨true, none, false, s⟩ store).1 s).length =
      (store.filter (candCond s)).length := by
    unfold fetchRows
    rw [sortById_length]
    exact filter_length_skel s _ store hskel
  have hlen1 : (fetchRows store s).length = (store.filter (candCond s)).length := by
    unfold fetchRows
    rw [sortById_length]
    rfl
  refine ⟨?_, ?_, ?_, ?_, ?_⟩
  · show (aiBulkLoop oracle (fun _ => false) lo ⟨true, none, false, s⟩ _ _
      ⟨0, 0, 0⟩).2.updated = 0
    rw [hrun2]
  · show (aiBulkLoop oracle (fun _ => false) lo ⟨true, none, false, s⟩ _ _
      ⟨0, 0, 0⟩).2.failed = 0
    rw [hrun2]
  · show (aiBulkLoop oracle (fun _ => false) lo ⟨true, none, false, s⟩ _ _
      ⟨0, 0, 0⟩).1 = _
    rw [hrun2]
  · show (aiBulkLoop oracle (fun _ => false) lo ⟨true, none, false, s⟩ _ _
      ⟨0, 0, 0⟩).2.processed = _
    rw [aiBulkLoop_processed_none oracle (fun _ => false) lo
      ⟨true, none, false, s⟩ rfl]
    simpa using hlen1
  · show (aiBulkLoop oracle (fun _ => false) lo ⟨true, none, false, s⟩ _ _
      ⟨0, 0, 0⟩).2.processed = _
    rw [hrun2]
    simpa using hlen2

/-! ## Claim C8 — idempotence of the normaliser -/

theorem cr_not_mem_replCR (l : List Char) : '\r' ∉ replCR l := by
  intro h
  rcases List.mem_map.mp h with ⟨c, _, he⟩
  by_cases hc : (c == '\r') = true
  · rw [if_pos hc] at he
    exact absurd he (by decide)
  · rw [if_neg hc] at he
    rw [he] at hc
    exact hc (by decide)

theorem replCRLF_no_cr : ∀ l : List Char, '\r' ∉ l → replCRLF l = l
  | [], _ => rfl
  | [_], _ => rfl
  | a :: b :: t, h => by
    have ha : ¬(a == '\r' && b == '\n') = true := by
      intro hab
      have h2 : a = '\r' ∧ b = '\n' := by simpa using hab
      refine h ?_
      rw [← h2.1]
      exact List.mem_cons_self a (b :: t)
    rw [replCRLF, if_neg ha]
    congr 1
    exact replCRLF_no_cr (b :: t) fun hm => h (List.mem_cons_of_mem a hm)

theorem replCR_no_cr (l : List Char) (h : '\r' ∉ l) : replCR l = l := by
  have h2 : l.map (fun c => if c == '\r' then '\n' else c) = l.map id :=
    List.map_congr_left fun c hc => by
      have hcne : ¬(c == '\r') = true := fun hcc => h (by
        have hc2 : c = '\r' := by simpa using hcc
        rw [← hc2]
        exact hc)
      rw [if_neg hcne]
      rfl
  unfold replCR
  rw [h2, List.map_id]

theorem mem_strip {c : Char} {l : List Char} (h : c ∈ strip l) : c ∈ l := by
  unfold strip at h
  rw [List.mem_reverse] at h
  have h2 := (List.dropWhile_suffix isWS).subset h
  rw [List.mem_reverse] at h2
  exact (List.dropWhile_suffix isWS).subset h2

theorem mem_collapseAux {c : Char} :
    ∀ (l : List Char) (k : Nat), c ∈ collapseAux k l → c = '\n' ∨ c ∈ l := by
  intro l
  induction l with
  | nil =>
    intro k h
    rw [collapseAux] at h
    exact Or.inl (List.eq_of_mem_replicate h)
  | cons d t ih =>
    intro k h
    rw [collapseAux] at h
    by_cases hd : (d == '\n') = true
    · rw [if_pos hd] at h
      rcases ih (k + 1) h with h | h
      · exact Or.inl h
      · exact Or.inr (List.mem_cons_of_mem d h)
    · rw [if_neg hd] at h
      rcases List.mem_append.mp h with h | h
      · exact Or.inl (List.eq_of_mem_replicate h)
      · rcases List.mem_cons.mp h with rfl | h
        · exact Or.inr (List.mem_cons_self c t)
        · rcases ih 0 h with h | h
          · exact Or.inl h
          · exact Or.inr (List.mem_cons_of_mem d h)

theorem cr_not_mem_normalise (l : List Char) : '\r' ∉ normalise l := by
  intro h
  unfold normalise collapse at h
  rcases mem_collapseAux _ 0 h with h | h
  · exact absurd h (by decide)
  · exact cr_not_mem_replCR _ (mem_strip h)

theorem collapseAux_replicate (r : List Char) :
    ∀ (j a : Nat), collapseAux a (List.replicate j '\n' ++ r) = collapseAux (a + j) r := by
  intro j
  induction j with
  | zero => intro a; simp
  | succ n ih =>
    intro a
    rw [List.replicate_succ, List.cons_append, collapseAux, if_pos (by decide)]
    rw [ih (a + 1)]
    congr 1
    omega

theorem collapseAux_sat : ∀ (l : List Char) (k : Nat), 2 ≤ k →
    collapseAux k l = collapseAux 2 l := by
  intro l
  induction l with
  | nil =>
    intro k hk
    rw [collapseAux, collapseAux]
    have h1 : min k 2 = min 2 2 := by omega
    rw [h1]
  | cons d t ih =>
    intro k hk
    rw [collapseAux, collapseAux]
    by_cases hd : (d == '\n') = true
    · rw [if_pos hd, if_pos hd]
      rw [ih (k + 1) (by omega), ih (2 + 1) (by omega)]
    · rw [if_neg hd, if_neg hd]
      have h1 : min k 2 = min 2 2 := by omega
      rw [h1]

theorem collapseAux_idem : ∀ (l : List Char) (k : Nat),
    collapseAux 0 (collapseAux k l) = collapseAux (min k 2) l := by
  intro l
  induction l with
  | nil =>
    intro k
    rw [collapseAux]
    rw [show collapseAux (min k 2) ([] : List Char) =
      List.replicate (min (min k 2) 2) '\n' from rfl]
    rw [← List.append_nil (List.replicate (min k 2) '\n')]
    rw [collapseAux_replicate [] (min k 2) 0]
    rw [collapseAux]
    have h1 : min (0 + min k 2) 2 = min (min k 2) 2 := by omega
    rw [h1]
  | cons d t ih =>
    intro k
    by_cases hd : (d == '\n') = true
    · rw [show collapseAux k (d :: t) = collapseAux (k + 1) t from by
        rw [collapseAux, if_pos hd]]
      rw [show collapseAux (min k 2) (d :: t) = collapseAux (min k 2 + 1) t from by
        rw [collapseAux, if_pos hd]]
      rw [ih (k + 1)]
      by_cases hk : 2 ≤ k
      · have h1 : min (k + 1) 2 = 2 := by omega
        have h2 : min k 2 + 1 = 2 + 1 := by omega
        rw [h1, h2, collapseAux_sat t (2 + 1) (by omega)]
      · have h1 : min (k + 1) 2 = min k 2 + 1 := by omega
        rw [h1]
    · rw [show collapseAux k (d :: t) =
        List.replicate (min k 2) '\n' ++ d :: collapseAux 0 t from by
        rw [collapseAux, if_neg hd]]
      rw [collapseAux_replicate (d :: collapseAux 0 t) (min k 2) 0]
      rw [show collapseAux (0 + min k 2) (d :: collapseAux 0 t) =
        List.replicate (min (0 + min k 2) 2) '\n' ++
          d :: collapseAux 0 (collapseAux 0 t) from by
        rw [collapseAux, if_neg hd]]
      rw [ih 0]
      rw [show collapseAux (min k 2) (d :: t) =
        List.replicate (min (min k 2) 2) '\n' ++ d :: collapseAux 0 t from by
        rw [collapseAux, if_neg hd]]
      have h1 : min (0 + min k 2) 2 = min (min k 2) 2 := by omega
      rw [h1]
      rfl

theorem collapse_idem (l : List Char) : collapse (collapse l) = collapse l := by
  unfold collapse
  rw [collapseAux_idem l 0]
  rfl

theorem head?_dropWhile_not (p : Char → Bool) :
    ∀ (l : List Char) (c : Char), (l.dropWhile p).head? = some c → p c = false := by
  intro l
  induction l with
  | nil => intro c h; cases h
  | cons d t ih =>
    intro c h
    rw [List.dropWhile_cons] at h
    by_cases hd : p d = true
    · rw [if_pos hd] at h
      exact ih c h
    · rw [if_neg hd] at h
      have hdc : d = c := by simpa using h
      rw [← hdc]
      exact Bool.eq_false_iff.mpr hd

theorem dropWhile_head_eq_self (p : Char → Bool) (l : List Char)
    (h : ∀ c, l.head? = some c → p c = false) : l.dropWhile p = l := by
  cases l with
  | nil => rfl
  | cons d t =>
    have hd := h d rfl
    rw [List.dropWhile_cons, if_neg (by rw [hd]; exact Bool.false_ne_true)]

theorem strip_head?_not_ws (l : List Char) (c : Char)
    (h : (strip l).head? = some c) : isWS c = false := by
  unfold strip at h
  rw [List.head?_reverse] at h
  have hr : ((l.dropWhile isWS).reverse.dropWhile isWS) ≠ [] := by
    intro he
    rw [he] at h
    cases h
  obtain ⟨u, hu⟩ := List.dropWhile_suffix (l := (l.dropWhile isWS).reverse) isWS
  have h2 : ((l.dropWhile isWS).reverse).getLast? = some c := by
    rw [← hu, List.getLast?_append_of_ne_nil u hr]
    exact h
  rw [List.getLast?_reverse] at h2
  exact head?_dropWhile_not isWS l c h2

theorem strip_getLast?_not_ws (l : List Char) (c : Char)
    (h : (strip l).getLast? = some c) : isWS c = false := by
  unfold strip at h
  rw [List.getLast?_reverse] at h
  exact head?_dropWhile_not isWS _ c h

theorem strip_eq_self (l : List Char)
    (h1 : ∀ c, l.head? = some c → isWS c = false)
    (h2 : ∀ c, l.getLast? = some c → isWS c = false) : strip l = l := by
  unfold strip
  rw [dropWhile_head_eq_self isWS l h1]
  rw [dropWhile_head_eq_self isWS l.reverse
    (fun c hc => h2 c (by rwa [List.head?_reverse] at hc))]
  exact List.reverse_reverse l

theorem collapseAux_getLast? :
    ∀ (l : List Char) (k : Nat) (c : Char), l.getLast? = some c →
      isWS c = false → (collapseAux k l).getLast? = some c := by
  intro l
  induction l with
  | nil => intro k c h _; cases h
  | cons d t ih =>
    intro k c h hc
    cases t with
    | nil =>
      have hdc : d = c := by simpa using h
      subst hdc
      have hd : ¬(d == '\n') = true := by
        intro hdd
        have hd2 : d = '\n' := by simpa using hdd
        rw [hd2] at hc
        exact absurd hc (by decide)
      rw [collapseAux, if_neg hd]
      rw [show collapseAux 0 ([] : List Char) = [] from rfl]
      exact List.getLast?_concat _
    | cons e t2 =>
      rw [List.getLast?_cons_cons] at h
      by_cases hd : (d == '\n') = true
      · rw [collapseAux, if_pos hd]
        exact ih (k + 1) c h hc
      · rw [collapseAux, if_neg hd]
        have htl := ih 0 c h hc
        have hne : collapseAux 0 (e :: t2) ≠ [] := by
          intro he
          rw [he] at htl
          cases htl
        rw [List.getLast?_append_of_ne_nil _ (List.cons_ne_nil d _)]
        cases hcc : collapseAux 0 (e :: t2) with
        | nil => exact absurd hcc hne
        | cons f t3 =>
          rw [List.getLast?_cons_cons, ← hcc]
          exact htl

theorem collapseAux0_head? (l : List Char) (c : Char) (h : l.head? = some c)
    (hc : isWS c = false) : (collapseAux 0 l).head? = some c := by
  cases l with
  | nil => cases h
  | cons d t =>
    have hdc : d = c := by simpa using h
    subst hdc
    have hd : ¬(d == '\n') = true := by
      intro hdd
      have hd2 : d = '\n' := by simpa using hdd
      rw [hd2] at hc
      exact absurd hc (by decide)
    rw [collapseAux, if_neg hd]
    rfl

theorem strip_collapse_strip (x : List Char) :
    strip (collapse (strip x)) = collapse (strip x) := by
  cases hs : (strip x).head? with
  | none =>
    have hnil : strip x = [] := List.head?_eq_none_iff.mp hs
    rw [hnil]
    rfl
  | some c =>
    have hcws : isWS c = false := strip_head?_not_ws x c hs
    have hne : strip x ≠ [] := by
      intro he
      rw [he] at hs
      cases hs
    obtain ⟨e, he⟩ : ∃ e, (strip x).getLast? = some e := by
      cases hgl : (strip x).getLast? with
      | none => exact absurd (List.getLast?_eq_none_iff.mp hgl) hne
      | some e => exact ⟨e, rfl⟩
    have hews := strip_getLast?_not_ws x e he
    apply strip_eq_self
    · intro c2 hc2
      unfold collapse at hc2
      rw [collapseAux0_head? (strip x) c hs hcws] at hc2
      have : c = c2 := by simpa using hc2
      rw [← this]
      exact hcws
    · intro e2 he2
      unfold collapse at he2
      rw [collapseAux_getLast? (strip x) 0 e he hews] at he2
      have : e = e2 := by simpa using he2
      rw [← this]
      exact hews

/-- Claim C8: the normaliser — CRLF and lone CR to LF, trim, collapse
runs of three or more line breaks to exactly two — is idempotent:
`normalise (normalise t) = normalise t` for every text. -/
theorem c8_normalise_idempotent (t : List Char) :
    normalise (normalise t) = normalise t := by
  have hnocr : '\r' ∉ normalise t := cr_not_mem_normalise t
  conv_lhs => rw [normalise]
  rw [replCRLF_no_cr _ hnocr, replCR_no_cr _ hnocr]
  rw [normalise]
  rw [strip_collapse_strip]
  exact collapse_idem _

/-! ## Claim C6 — graceful degradation on oracle faults -/

theorem replCRLF_ne_nil : ∀ l : List Char, l ≠ [] → replCRLF l ≠ []
  | [], h => absurd rfl h
  | [c], _ => by
    rw [show replCRLF [c] = [c] from rfl]
    exact List.cons_ne_nil c []
  | a :: b :: t, _ => by
    rw [replCRLF]
    by_cases hab : (a == '\r' && b == '\n') = true
    · rw [if_pos hab]; exact List.cons_ne_nil _ _
    · rw [if_neg hab]; exact List.cons_ne_nil _ _

theorem replCRLF_all_ws : ∀ l : List Char, l.all isWS = true →
    (replCRLF l).all isWS = true
  | [], _ => rfl
  | [c], h => h
  | a :: b :: t, h => by
    simp only [List.all_cons, Bool.and_eq_true] at h
    rw [replCRLF]
    by_cases hab : (a == '\r' && b == '\n') = true
    · rw [if_pos hab]
      simp only [List.all_cons, Bool.and_eq_true]
      exact ⟨by decide, replCRLF_all_ws t h.2.2⟩
    · rw [if_neg hab]
      simp only [List.all_cons, Bool.and_eq_true]
      refine ⟨h.1, ?_⟩
      exact replCRLF_all_ws (b :: t)
        (by simp only [List.all_cons, Bool.and_eq_true]; exact h.2)

theorem replCR_all_ws (l : List Char) (h : l.all isWS = true) :
    (replCR l).all isWS = true := by
  rw [List.all_eq_true]
  intro x hx
  rcases List.mem_map.mp hx with ⟨c, hc, rfl⟩
  show isWS (if c == '\r' then '\n' else c) = true
  by_cases hcr : (c == '\r') = true
  · rw [if_pos hcr]; decide
  · rw [if_neg hcr]
    exact List.all_eq_true.mp h c hc

/-- `replace("\r\n", "\n")` splits over an append whenever no CRLF pair
straddles the boundary. -/
theorem replCRLF_append : ∀ (x y : List Char),
    (x.getLast? = some '\r' → y.head? ≠ some '\n') →
    replCRLF (x ++ y) = replCRLF x ++ replCRLF y
  | [], y, _ => rfl
  | [c], y, h => by
    cases y with
    | nil => rfl
    | cons d t =>
      have hcd : ¬(c == '\r' && d == '\n') = true := by
        intro hcd
        have h2 : c = '\r' ∧ d = '\n' := by simpa using hcd
        exact (h (by rw [h2.1]; rfl)) (by rw [h2.2]; rfl)
      have e1 : replCRLF (c :: d :: t) = c :: replCRLF (d :: t) := by
        rw [replCRLF, if_neg hcd]
      rw [List.singleton_append, e1]
      rfl
  | a :: b :: t, y, h => by
    by_cases hab : (a == '\r' && b == '\n') = true
    · have e1 : replCRLF (a :: b :: (t ++ y)) = '\n' :: replCRLF (t ++ y) := by
        rw [replCRLF, if_pos hab]
      have e2 : replCRLF (a :: b :: t) = '\n' :: replCRLF t := by
        rw [replCRLF, if_pos hab]
      rw [List.cons_append, List.cons_append, e1, e2, List.cons_append]
      congr 1
      apply replCRLF_append t y
      intro hlast
      cases t with
      | nil => cases hlast
      | cons u v =>
        apply h
        rw [List.getLast?_cons_cons, List.getLast?_cons_cons]
        exact hlast
    · have e1 : replCRLF (a :: b :: (t ++ y)) = a :: replCRLF (b :: (t ++ y)) := by
        rw [replCRLF, if_neg hab]
      have e2 : replCRLF (a :: b :: t) = a :: replCRLF (b :: t) := by
        rw [replCRLF, if_neg hab]
      rw [List.cons_append, List.cons_append, e1, e2, List.cons_append]
      congr 1
      rw [← List.cons_append]
      apply replCRLF_append (b :: t) y
      intro hlast
      apply h
      rw [List.getLast?_cons_cons]
      exact hlast

theorem replCR_append (x y : List Char) :
    replCR (x ++ y) = replCR x ++ replCR y := by
  simp [replCR]

theorem replCRLF_head? : ∀ (l : List Char) (c : Char), l.head? = some c →
    (c == '\r') = false → (replCRLF l).head? = some c
  | [], c, h, _ => by cases h
  | [d], c, h, _ => by
    have hdc : d = c := by simpa using h
    subst hdc
    rfl
  | a :: b :: t, c, h, hcr => by
    have hac : a = c := by simpa using h
    subst hac
    have hab : ¬(a == '\r' && b == '\n') = true := by
      intro hh
      have h2 : a = '\r' ∧ b = '\n' := by simpa using hh
      rw [h2.1] at hcr
      exact absurd hcr (by decide)
    rw [replCRLF, if_neg hab]
    rfl

theorem replCRLF_getLast? : ∀ (l : List Char) (e : Char), l.getLast? = some e →
    (e == '\r') = false → (e == '\n') = false → (replCRLF l).getLast? = some e
  | [], e, h, _, _ => by cases h
  | [d], e, h, _, _ => by
    have hde : d = e := by simpa using h
    subst hde
    exact h
  | a :: b :: t, e, h, hcr, hnl => by
    by_cases hab : (a == '\r' && b == '\n') = true
    · have e1 : replCRLF (a :: b :: t) = '\n' :: replCRLF t := by
        rw [replCRLF, if_pos hab]
      rw [e1]
      cases t with
      | nil =>
        exfalso
        have h2 : b = '\n' := by
          have := (by simpa using hab : a = '\r' ∧ b = '\n')
          exact this.2
        have h3 : b = e := by simpa using h
        rw [← h3, h2] at hnl
        exact absurd hnl (by decide)
      | cons u v =>
        have h4 : (u :: v).getLast? = some e := by
          rw [List.getLast?_cons_cons, List.getLast?_cons_cons] at h
          exact h
        have htl := replCRLF_getLast? (u :: v) e h4 hcr hnl
        have hne : replCRLF (u :: v) ≠ [] := replCRLF_ne_nil _ (List.cons_ne_nil u v)
        cases hcc : replCRLF (u :: v) with
        | nil => exact absurd hcc hne
        | cons f t3 =>
          rw [List.getLast?_cons_cons, ← hcc]
          exact htl
    · have e1 : replCRLF (a :: b :: t) = a :: replCRLF (b :: t) := by
        rw [replCRLF, if_neg hab]
      rw [e1]
      have h4 : (b :: t).getLast? = some e := by
        rw [List.getLast?_cons_cons] at h
        exact h
      have htl := replCRLF_getLast? (b :: t) e h4 hcr hnl
      have hne : replCRLF (b :: t) ≠ [] := replCRLF_ne_nil _ (List.cons_ne_nil b t)
      cases hcc : replCRLF (b :: t) with
      | nil => exact absurd hcc hne
      | cons f t3 =>
        rw [List.getLast?_cons_cons, ← hcc]
        exact htl

theorem replCR_head? (l : List Char) (c : Char) (h : l.head? = some c)
    (hcr : (c == '\r') = false) : (replCR l).head? = some c := by
  cases l with
  | nil => cases h
  | cons d t =>
    have hdc : d = c := by simpa using h
    subst hdc
    unfold replCR
    rw [List.map_cons]
    show some (if d == '\r' then '\n' else d) = some d
    rw [if_neg (by rw [hcr]; exact Bool.false_ne_true)]

theorem replCR_reverse (l : List Char) : (replCR l).reverse = replCR l.reverse := by
  unfold replCR
  exact (List.map_reverse _ _).symm

theorem replCR_getLast? (l : List Char) (e : Char) (h : l.getLast? = some e)
    (hcr : (e == '\r') = false) : (replCR l).getLast? = some e := by
  have hrev := replCR_head? l.reverse e (by rwa [List.head?_reverse]) hcr
  rw [← List.head?_reverse, replCR_reverse]
  exact hrev

theorem dropWhile_append_all (p : Char → Bool) :
    ∀ (A z : List Char), A.all p = true → (A ++ z).dropWhile p = z.dropWhile p := by
  intro A
  induction A with
  | nil => intro z _; rfl
  | cons d t ih =>
    intro z h
    simp only [List.all_cons, Bool.and_eq_true] at h
    rw [List.cons_append, List.dropWhile_cons, if_pos h.1]
    exact ih z h.2

theorem dropWhile_all_nil (p : Char → Bool) (l : List Char) (h : l.all p = true) :
    l.dropWhile p = [] := by
  have h2 := dropWhile_append_all p l [] h
  simpa using h2

theorem strip_decomp (t : List Char) :
    ∃ a b, t = a ++ strip t ++ b ∧ a.all isWS = true ∧ b.all isWS = true := by
  refine ⟨t.takeWhile isWS, ((t.dropWhile isWS).reverse.takeWhile isWS).reverse,
    ?_, ?_, ?_⟩
  · conv_lhs => rw [← List.takeWhile_append_dropWhile isWS t]
    rw [List.append_assoc]
    congr 1
    conv_lhs => rw [← List.reverse_reverse (t.dropWhile isWS)]
    conv_lhs => rw [← List.takeWhile_append_dropWhile isWS (t.dropWhile isWS).reverse]
    rw [List.reverse_append]
    rfl
  · rw [List.all_eq_true]
    intro x hx
    exact List.mem_takeWhile_imp hx
  · rw [List.all_eq_true]
    intro x hx
    rw [List.mem_reverse] at hx
    exact List.mem_takeWhile_imp hx

theorem strip_sandwich (A C B : List Char) (hA : A.all isWS = true)
    (hB : B.all isWS = true)
    (hCh : ∀ c, C.head? = some c → isWS c = false)
    (hCl : ∀ c, C.getLast? = some c → isWS c = false) :
    strip (A ++ C ++ B) = C := by
  cases C with
  | nil =>
    unfold strip
    rw [List.append_nil]
    rw [dropWhile_append_all isWS A B hA, dropWhile_all_nil isWS B hB]
    rfl
  | cons c0 ct =>
    have hc0 : isWS c0 = false := hCh c0 rfl
    unfold strip
    rw [List.append_assoc]
    rw [dropWhile_append_all isWS A _ hA]
    rw [List.cons_append]
    rw [List.dropWhile_cons, if_neg (by rw [hc0]; exact Bool.false_ne_true)]
    rw [← List.cons_append, List.reverse_append]
    rw [dropWhile_append_all isWS B.reverse _ (by
      rw [List.all_eq_true]
      intro x hx
      rw [List.mem_reverse] at hx
      exact List.all_eq_true.mp hB x hx)]
    rw [dropWhile_head_eq_self isWS ((c0 :: ct).reverse)
      (fun c hc => hCl c (by rwa [List.head?_reverse] at hc))]
    exact List.reverse_reverse _

theorem strip_all_ws (l : List Char) (h : l.all isWS = true) : strip l = [] := by
  unfold strip
  rw [dropWhile_all_nil isWS l h]
  rfl

/-- Stripping first does not change the normalised text. -/
theorem normalise_strip (t : List Char) : normalise (strip t) = normalise t := by
  obtain ⟨a, b, hdec, hA, hB⟩ := strip_decomp t
  cases hC : (strip t).head? with
  | none =>
    have hnil : strip t = [] := List.head?_eq_none_iff.mp hC
    rw [hnil] at hdec ⊢
    have hab : t.all isWS = true := by
      rw [hdec]
      simp only [List.append_nil, List.all_append, Bool.and_eq_true]
      exact ⟨hA, hB⟩
    have h2 : (replCR (replCRLF t)).all isWS = true :=
      replCR_all_ws _ (replCRLF_all_ws _ hab)
    unfold normalise
    rw [strip_all_ws _ h2]
    rfl
  | some c0 =>
    have hc0 : isWS c0 = false := strip_head?_not_ws t c0 hC
    have hne : strip t ≠ [] := by
      intro he
      rw [he] at hC
      cases hC
    obtain ⟨e, hE⟩ : ∃ e, (strip t).getLast? = some e := by
      cases hgl : (strip t).getLast? with
      | none => exact absurd (List.getLast?_eq_none_iff.mp hgl) hne
      | some e => exact ⟨e, rfl⟩
    have hews : isWS e = false := strip_getLast?_not_ws t e hE
    have hc0cr : (c0 == '\r') = false := by
      by_cases hcc : (c0 == '\r') = true
      · have hc2 : c0 = '\r' := by simpa using hcc
        rw [hc2] at hc0
        exact absurd hc0 (by decide)
      · exact Bool.eq_false_iff.mpr hcc
    have hecr : (e == '\r') = false := by
      by_cases hcc : (e == '\r') = true
      · have hc2 : e = '\r' := by simpa using hcc
        rw [hc2] at hews
        exact absurd hews (by decide)
      · exact Bool.eq_false_iff.mpr hcc
    have henl : (e == '\n') = false := by
      by_cases hcc : (e == '\n') = true
      · have hc2 : e = '\n' := by simpa using hcc
        rw [hc2] at hews
        exact absurd hews (by decide)
      · exact Bool.eq_false_iff.mpr hcc
    have hCh2 : (replCR (replCRLF (strip t))).head? = some c0 :=
      replCR_head? _ c0 (replCRLF_head? _ c0 hC hc0cr) hc0cr
    have hCl2 : (replCR (replCRLF (strip t))).getLast? = some e :=
      replCR_getLast? _ e (replCRLF_getLast? _ e hE hecr henl) hecr
    have hsplit1 : replCRLF (a ++ (strip t ++ b)) =
        replCRLF a ++ replCRLF (strip t ++ b) := by
      apply replCRLF_append
      intro _ hhead
      cases hst : strip t with
      | nil => exact absurd hst hne
      | cons u v =>
        rw [hst, List.cons_append] at hhead
        have hu : u = '\n' := by simpa using hhead
        rw [hst] at hC
        have hu2 : u = c0 := by simpa using hC
        rw [hu2] at hu
        rw [hu] at hc0
        exact absurd hc0 (by decide)
    have hsplit2 : replCRLF (strip t ++ b) =
        replCRLF (strip t) ++ replCRLF b := by
      apply replCRLF_append
      intro hlast
      rw [hE] at hlast
      have h2 : e = '\r' := by simpa using hlast
      rw [h2] at hecr
      exact absurd hecr (by decide)
    have hAall : (replCR (replCRLF a)).all isWS = true :=
      replCR_all_ws _ (replCRLF_all_ws _ hA)
    have hBall : (replCR (replCRLF b)).all isWS = true :=
      replCR_all_ws _ (replCRLF_all_ws _ hB)
    have hChAll : ∀ c, (replCR (replCRLF (strip t))).head? = some c →
        isWS c = false := by
      intro c hc
      rw [hCh2] at hc
      have : c0 = c := by simpa using hc
      rw [← this]
      exact hc0
    have hClAll : ∀ c, (replCR (replCRLF (strip t))).getLast? = some c →
        isWS c = false := by
      intro c hc
      rw [hCl2] at hc
      have : e = c := by simpa using hc
      rw [← this]
      exact hews
    conv_rhs => rw [hdec]
    unfold normalise
    rw [List.append_assoc, hsplit1, hsplit2]
    rw [replCR_append, replCR_append]
    rw [← List.append_assoc]
    rw [strip_sandwich _ _ _ hAall hBall hChAll hClAll]
    rw [strip_eq_self _ hChAll hClAll]

/-- Claim C6: when every oracle call raises a fault, the invoker never
raises (it is total by construction: `generate_response` absorbs the
fault and returns the stripped raw input) and both retry branches
return `normalise raw` — the original raw text, normalised, unchanged. -/
theorem c6_fault_degradation (orc : Nat → OResp) (hfault : ∀ n, orc n = OResp.fault)
    (k : Nat) (raw : List Char) :
    (invoke_with_retry orc k raw).1 = normalise raw := by
  unfold invoke_with_retry
  rw [hfault k, hfault (k + 1)]
  show (if hasLHashWB (normalise (genResp OResp.fault raw)) = true then
    (normalise (genResp OResp.fault raw), k + 2) else
    (normalise (genResp OResp.fault raw), k + 1)).1 = normalise raw
  by_cases h : hasLHashWB (normalise (genResp OResp.fault raw)) = true
  · rw [if_pos h]
    show normalise (strip raw) = normalise raw
    exact normalise_strip raw
  · rw [if_neg h]
    show normalise (strip raw) = normalise raw
    exact normalise_strip raw

/-- Claim C6, witness: an always-faulting oracle stub on a concrete raw
block returns exactly the normalised raw text after one full invoker
round. -/
theorem c6_fault_degradation_witness :
    (invoke_with_retry (fun _ => OResp.fault) 0 "  a\r\nb  ".toList).1 =
      normalise "  a\r\nb  ".toList := by
  exact c6_fault_degradation (fun _ => OResp.fault) (fun _ => rfl) 0
    "  a\r\nb  ".toList

end MdEngine
